import Mathlib

/-!
Verification development for the agari-datagen repository.

The repository has two Python command-line utilities:
  - src/generate_dummy_tsv.py  (pipeline A: dummy TSV + randomized FASTA archive)
  - src/upload_files.py        (pipeline B: bulk HTTP upload)

This file gives a shallow embedding of the data model and the operations of
both utilities, and proves or refutes the frozen claims about them.

Modelling conventions:
  - The Python global random generator is modelled as an infinite stream of
    natural numbers with a cursor (structure RandSrc).  Each primitive draw
    consumes one stream element.  Claims quantify over all streams.
  - Fallible Python calls (random.choice on an empty sequence,
    random.randint with an empty range, random.sample with too large a
    sample size) are modelled with Option; none corresponds to the Python
    call raising.
  - Python float values are modelled as rationals; round(x, 2) is modelled
    as rounding to the nearest multiple of 1/100 (the tie-breaking rule is
    immaterial to every claim below).
  - datetime.now() is modelled by an explicit parameter today counted in
    days since the civil epoch 1970-01-01; strftime is modelled by a
    civil-calendar rendering of that day count.
-/

/-- Model of the global random generator: an infinite stream of naturals
together with a cursor position. -/
structure RandSrc where
  stream : Nat → Nat
  pos : Nat

/-- Consume one element of the random stream. -/
def RandSrc.next (r : RandSrc) : Nat × RandSrc :=
  (r.stream r.pos, { r with pos := r.pos + 1 })

/-- The alphabet string.ascii_letters + string.digits used by
generate_random_string in src/generate_dummy_tsv.py. -/
def asciiAlphanum : List Char :=
  "abcdefghijklmnopqrstuvwxyzABCDEFGHIJKLMNOPQRSTUVWXYZ0123456789".toList

/-- Draw k characters uniformly from asciiAlphanum
(random.choices(alphabet, k=...)). -/
def randChars : Nat → RandSrc → List Char × RandSrc
  | 0, r => ([], r)
  | k + 1, r =>
    let (n, r1) := r.next
    let c := asciiAlphanum.getD (n % asciiAlphanum.length) 'a'
    let (cs, r2) := randChars k r1
    (c :: cs, r2)

/-- generate_random_string(length) from src/generate_dummy_tsv.py (line 21). -/
def generate_random_string (len : Nat) (r : RandSrc) : String × RandSrc :=
  let (cs, r1) := randChars len r
  (String.mk cs, r1)

/-- generate_random_filename from src/generate_dummy_tsv.py (line 26):
a random 12-character string followed by the .fasta extension. -/
def generate_random_filename (r : RandSrc) : String × RandSrc :=
  let (s, r1) := generate_random_string 12 r
  (s ++ ".fasta", r1)

/-- Model of random.randint(lo, hi): uniform in [lo, hi]; raises
(modelled as none) when hi < lo. -/
def randint (lo hi : Int) (r : RandSrc) : Option (Int × RandSrc) :=
  if lo ≤ hi then
    let (n, r1) := r.next
    some (lo + Int.ofNat (n % (hi + 1 - lo).toNat), r1)
  else none

/-- Model of random.choice(l): uniform element of l; raises (none) on an
empty sequence. -/
def choice {α : Type} (l : List α) (r : RandSrc) : Option (α × RandSrc) :=
  match l with
  | [] => none
  | a :: t =>
    let (n, r1) := r.next
    some ((a :: t).getD (n % (a :: t).length) a, r1)

/-- Helper for sample: draw k elements without replacement by repeatedly
choosing an index and erasing it. -/
def sampleAux {α : Type} : Nat → List α → RandSrc → List α × RandSrc
  | 0, _, r => ([], r)
  | _ + 1, [], r => ([], r)
  | k + 1, a :: t, r =>
    let l := a :: t
    let (n, r1) := r.next
    let i := n % l.length
    let x := l.getD i a
    let (rest, r2) := sampleAux k (l.eraseIdx i) r1
    (x :: rest, r2)

/-- Model of random.sample(l, k): k distinct positions of l, without
replacement; raises (none) when k exceeds the population size. -/
def sample {α : Type} (l : List α) (k : Nat) (r : RandSrc) : Option (List α × RandSrc) :=
  if k ≤ l.length then some (sampleAux k l r) else none

/-- Model of random.uniform(lo, hi): lo + (hi - lo) * u with u in [0, 1),
the unit draw being a rational with six fractional digits. -/
def uniform (lo hi : ℚ) (r : RandSrc) : ℚ × RandSrc :=
  let (n, r1) := r.next
  (lo + (hi - lo) * (((n % 1000000 : Nat) : ℚ) / 1000000), r1)

/-- Model of round(x, 2): the nearest multiple of 1/100. -/
def roundTo2 (x : ℚ) : ℚ := ((round (x * 100) : ℤ) : ℚ) / 100

/-- Zero-padded two-digit decimal rendering, as in strftime %m and %d. -/
def pad2 (n : Nat) : String := if n < 10 then "0" ++ toString n else toString n

/-- Civil-calendar conversion from days since 1970-01-01 to
(year, month, day), standard era decomposition. -/
def civilFromDays (z0 : Int) : Int × Nat × Nat :=
  let z := z0 + 719468
  let era := z.fdiv 146097
  let doe := (z - era * 146097).toNat
  let yoe := (doe - doe / 1460 + doe / 36524 - doe / 146096) / 365
  let y := era * 400 + Int.ofNat yoe
  let doy := doe - (365 * yoe + yoe / 4 - yoe / 100)
  let mp := (5 * doy + 2) / 153
  let d := doy - (153 * mp + 2) / 5 + 1
  let m := if mp < 10 then mp + 3 else mp - 9
  (y + (if m ≤ 2 then 1 else 0), m, d)

/-- strftime %Y-%m-%d rendering of a day count. -/
def formatDate (epochDay : Int) : String :=
  let c := civilFromDays epochDay
  toString c.1 ++ "-" ++ pad2 c.2.1 ++ "-" ++ pad2 c.2.2

/-- generate_random_date from src/generate_dummy_tsv.py (line 132):
now minus randint(0, 365) days, rendered as %Y-%m-%d.  The randint(0, 365)
call is inlined (its range is never empty). -/
def generate_random_date (today : Int) (r : RandSrc) : String × RandSrc :=
  let (n, r1) := r.next
  (formatDate (today - Int.ofNat (n % 366)), r1)

/-- Values produced by the dummy-data generator: JSON-ish scalars and lists.
Python floats are modelled as rationals. -/
inductive Value : Type where
  | str (s : String)
  | int (n : Int)
  | num (q : ℚ)
  | list (l : List Value)

/-- Python truthiness of a generated value, used by the required-field
backfill test `not row[req]`. -/
def Value.truthy : Value → Bool
  | .str s => decide (s.length ≠ 0)
  | .int n => decide (n ≠ 0)
  | .num q => decide (q ≠ 0)
  | .list l => decide (l.length ≠ 0)

/-- A JSON-schema property descriptor, covering exactly the keys consulted by
generate_dummy_value: type, enum, items, format, minimum, maximum. -/
inductive Descr : Type where
  | mk (type : Option String) (enum : Option (List Value)) (items : Option Descr)
       (format : Option String) (minimum : Option ℚ) (maximum : Option ℚ)

def Descr.type : Descr → Option String
  | .mk t _ _ _ _ _ => t

def Descr.enum : Descr → Option (List Value)
  | .mk _ e _ _ _ _ => e

def Descr.items : Descr → Option Descr
  | .mk _ _ i _ _ _ => i

def Descr.format : Descr → Option String
  | .mk _ _ _ f _ _ => f

def Descr.minimum : Descr → Option ℚ
  | .mk _ _ _ _ lo _ => lo

def Descr.maximum : Descr → Option ℚ
  | .mk _ _ _ _ _ hi => hi

/-- The empty descriptor, i.e. the Python literal {} used as a default. -/
def emptyDescr : Descr := .mk none none none none none none

/-- Build 1 to 3 random strings for an array property without an item enum
(the list comprehension on line 156 of src/generate_dummy_tsv.py). -/
def randStrings : Nat → RandSrc → List Value × RandSrc
  | 0, r => ([], r)
  | k + 1, r =>
    let (s, r1) := generate_random_string 20 r
    let (rest, r2) := randStrings k r1
    (.str s :: rest, r2)

/-- generate_dummy_value from src/generate_dummy_tsv.py (lines 139-172),
translated branch by branch.  none models a raised exception (empty enum
for random.choice, empty range for random.randint, fractional bounds for
random.randint). -/
def generate_dummy_value (today : Int) (d : Descr) (r : RandSrc) : Option (Value × RandSrc) :=
  let prop_type := d.type.getD "string"
  match d.enum with
  | some es =>
    match choice es r with
    | some (v, r1) => some (v, r1)
    | none => none
  | none =>
    if prop_type = "array" then
      let items := d.items.getD emptyDescr
      match items.enum with
      | some es =>
        match randint 1 (min 3 (Int.ofNat es.length)) r with
        | some (k, r1) =>
          match sample es k.toNat r1 with
          | some (vs, r2) => some (.list vs, r2)
          | none => none
        | none => none
      | none =>
        match randint 1 3 r with
        | some (k, r1) =>
          let p := randStrings k.toNat r1
          some (.list p.1, p.2)
        | none => none
    else if prop_type = "string" then
      if d.format = some "date" then
        let (s, r1) := generate_random_date today r
        some (.str s, r1)
      else
        let (s, r1) := generate_random_string 20 r
        some (.str s, r1)
    else if prop_type = "number" ∨ prop_type = "integer" then
      let max_val := d.maximum.getD 100
      let min_val := d.minimum.getD 1
      if prop_type = "number" then
        let (x, r1) := uniform min_val max_val r
        some (.num (roundTo2 x), r1)
      else
        if min_val.den = 1 ∧ max_val.den = 1 then
          match randint min_val.num max_val.num r with
          | some (n, r1) => some (.int n, r1)
          | none => none
        else none
    else
      let (s, r1) := generate_random_string 20 r
      some (.str s, r1)

/-- Lexicographic comparison of character lists by code point, as Python
compares strings. -/
def strLeChars : List Char → List Char → Bool
  | [], _ => true
  | _ :: _, [] => false
  | a :: as, b :: bs => if a = b then strLeChars as bs else decide (a < b)

/-- Python string comparison a <= b (code-point lexicographic). -/
def pyStrLe (a b : String) : Bool := strLeChars a.data b.data

/-- A HeaderEntry: a (randomized_file_name, header_text) pair. -/
abbrev HeaderEntry := String × String

/-- The group of entries of one file, in input order: the per-file list that
the spreading code builds under file_groups[filename]. -/
def groupOf (l : List HeaderEntry) (f : String) : List HeaderEntry :=
  l.filter (fun e => e.1 == f)

/-- The distinct file names of an entry list, in ascending order:
sorted(file_groups.keys()) in the spreading code. -/
def fileKeys (l : List HeaderEntry) : List String :=
  List.insertionSort (fun a b => pyStrLe a b = true) ((l.map Prod.fst).dedup)

/-- The largest group size: max(len(group) for group in file_groups.values()).
On an empty entry list this model returns 0 where Python max() would raise;
generate_dummy_data only evaluates it on non-empty lists. -/
def maxEntries (l : List HeaderEntry) : Nat :=
  ((fileKeys l).map (fun f => (groupOf l f).length)).foldr Nat.max 0

/-- The spreading transformation from generate_dummy_data
(src/generate_dummy_tsv.py lines 184-202): group the entries by file name,
then for i = 0, 1, ... append the i-th entry of each group, visiting the
file names in sorted order. -/
def interleave (l : List HeaderEntry) : List HeaderEntry :=
  (List.range (maxEntries l)).flatMap
    (fun i => (fileKeys l).filterMap (fun f => (groupOf l f).get? i))

/-- A generated row: field name to value, in insertion order
(a Python dict). -/
abbrev Row := List (String × Value)

/-- Python dict assignment row[k] = v: overwrite the entry of an existing
key in place, else append a new entry at the end. -/
def setKey (row : Row) (k : String) (v : Value) : Row :=
  if row.any (fun p => p.1 == k) then
    row.map (fun p => if p.1 == k then (p.1, v) else p)
  else row ++ [(k, v)]

/-- The per-row properties loop of generate_dummy_data
(src/generate_dummy_tsv.py lines 207-220): iterate the schema properties in
declaration order, special-casing fasta_file_name and fasta_header_name,
threading the shared fasta_index cursor (which advances only in the
fasta_header_name branch) and the random source. -/
def genRowProps (today : Int) (fasta_list : List HeaderEntry) :
    List (String × Descr) → Nat → RandSrc → Row → Option (Row × Nat × RandSrc)
  | [], idx, r, row => some (row, idx, r)
  | (prop_name, prop_details) :: rest, idx, r, row =>
    if prop_name = "fasta_file_name" then
      match fasta_list with
      | [] =>
        let (s, r1) := generate_random_string 20 r
        genRowProps today fasta_list rest idx r1 (setKey row prop_name (.str s))
      | a :: t =>
        let e := (a :: t).getD (idx % (a :: t).length) a
        genRowProps today fasta_list rest idx r (setKey row prop_name (.str e.1))
    else if prop_name = "fasta_header_name" then
      match fasta_list with
      | [] =>
        let (s, r1) := generate_random_string 20 r
        genRowProps today fasta_list rest idx r1 (setKey row prop_name (.str s))
      | a :: t =>
        let e := (a :: t).getD (idx % (a :: t).length) a
        genRowProps today fasta_list rest (idx + 1) r (setKey row prop_name (.str e.2))
    else
      match generate_dummy_value today prop_details r with
      | some (v, r1) => genRowProps today fasta_list rest idx r1 (setKey row prop_name v)
      | none => none

/-- The required-field backfill loop of generate_dummy_data
(src/generate_dummy_tsv.py lines 223-225): for each required name, if the
row lacks it or holds a falsy value, assign a fresh value synthesized from
properties.get(req, {}). -/
def backfillRequired (today : Int) (properties : List (String × Descr)) :
    List String → RandSrc → Row → Option (Row × RandSrc)
  | [], r, row => some (row, r)
  | req :: rest, r, row =>
    match row.lookup req with
    | some v =>
      if v.truthy then backfillRequired today properties rest r row
      else
        match generate_dummy_value today ((properties.lookup req).getD emptyDescr) r with
        | some (nv, r1) => backfillRequired today properties rest r1 (setKey row req nv)
        | none => none
    | none =>
      match generate_dummy_value today ((properties.lookup req).getD emptyDescr) r with
      | some (nv, r1) => backfillRequired today properties rest r1 (setKey row req nv)
      | none => none

/-- A JSON schema as consumed by generate_dummy_data: the declared
properties in order, and the required list. -/
structure Schema where
  properties : List (String × Descr)
  required : List String

/-- The outer row loop of generate_dummy_data (src/generate_dummy_tsv.py
lines 204-227): build num_rows rows, threading the fasta cursor and the
random source across rows. -/
def genRows (today : Int) (schema : Schema) (fasta_list : List HeaderEntry) :
    Nat → Nat → RandSrc → Option (List Row × RandSrc)
  | 0, _, r => some ([], r)
  | n + 1, idx, r =>
    match genRowProps today fasta_list schema.properties idx r [] with
    | some (row, idx1, r1) =>
      match backfillRequired today schema.properties schema.required r1 row with
      | some (row2, r2) =>
        match genRows today schema fasta_list n idx1 r2 with
        | some (rows, r3) => some (row2 :: rows, r3)
        | none => none
      | none => none
    | none => none

/-- generate_dummy_data from src/generate_dummy_tsv.py (lines 175-229):
optionally interleave the fasta list for even spreading, then generate the
requested number of rows. -/
def generate_dummy_data (today : Int) (schema : Schema) (num_rows : Nat)
    (fasta_list : List HeaderEntry) (spread_evenly : Bool) (r : RandSrc) :
    Option (List Row × RandSrc) :=
  let fl := if spread_evenly && !fasta_list.isEmpty then interleave fasta_list else fasta_list
  genRows today schema fl num_rows 0 r

/-!  Pipeline B: src/upload_files.py. -/

/-- The outcome of one HTTP POST in upload_file: either a status code, or a
raised transport exception carrying its text. -/
inductive HttpOutcome : Type where
  | status (code : Nat)
  | exc (msg : String)

/-- upload_file from src/upload_files.py (lines 17-44): true exactly when
the response status is 200 or 201; any other status, and any raised
exception, yields false. -/
def upload_file (resp : HttpOutcome) : Bool :=
  match resp with
  | .status code => code = 200 ∨ code = 201
  | .exc _ => false

/-- The exit-status logic of main in src/upload_files.py (lines 60-95),
with the filesystem abstracted: folderExists and folderIsDir reflect the
two folder checks, files is the pattern-matched regular-file list, and resp
gives the per-file HTTP outcome.  Exit code 1 via sys.exit(1) on an invalid
folder or any failed upload; sys.exit(0) on an empty match; 0 by falling
off main when every upload succeeds. -/
def uploadMainExit (folderExists folderIsDir : Bool) (files : List String)
    (resp : String → HttpOutcome) : Nat :=
  if !folderExists then 1
  else if !folderIsDir then 1
  else if files.isEmpty then 0
  else
    let fail_count := ((List.insertionSort (fun a b => pyStrLe a b = true) files).filter
      (fun f => !upload_file (resp f))).length
    if fail_count > 0 then 1 else 0

/-!  Pipeline A: the file-level components and main of src/generate_dummy_tsv.py. -/

/-- Python str.strip(): remove leading and trailing whitespace characters,
modelled on the character list. -/
def stripChars (l : List Char) : List Char :=
  (((l.dropWhile Char.isWhitespace).reverse).dropWhile Char.isWhitespace).reverse

/-- Python str.strip() on strings. -/
def pyStrip (s : String) : String := String.mk (stripChars s.data)

/-- Python str.startswith(p). -/
def pyStartsWith (s p : String) : Bool := p.data.isPrefixOf s.data

/-- Python s[1:], character slicing from position 1. -/
def pySlice1 (s : String) : String := String.mk (s.data.drop 1)

/-- A source FASTA file: its base name and its content as a list of lines
(line text without the trailing newline). -/
structure SourceFile where
  name : String
  lines : List String

/-- The header-replacement loop of create_randomized_fasta_files
(src/generate_dummy_tsv.py lines 69-76): a line whose first character is
the record marker is replaced by a fresh random header; every other line is
copied verbatim. -/
def transformLines : List String → RandSrc → List String × RandSrc
  | [], r => ([], r)
  | line :: rest, r =>
    if pyStartsWith line ">" then
      let (h, r1) := generate_random_string 20 r
      let (others, r2) := transformLines rest r1
      ((">" ++ h) :: others, r2)
    else
      let (others, r1) := transformLines rest r
      (line :: others, r1)

/-- The scratch directory: randomized file name to content lines. -/
abbrev TempDir := List (String × List String)

/-- Write a file into the scratch directory, overwriting an existing name. -/
def writeFile (d : TempDir) (name : String) (content : List String) : TempDir :=
  if d.any (fun p => p.1 == name) then
    d.map (fun p => if p.1 == name then (p.1, content) else p)
  else d ++ [(name, content)]

/-- The per-file loop of create_randomized_fasta_files (lines 55-84): for
each source file generate a random name, record the mapping, and write the
transformed content; ioFail injects the per-file try/except path, on which
the error is logged and the file is skipped while its mapping entry
remains. -/
def randomizeLoop (ioFail : String → Bool) :
    List SourceFile → RandSrc → TempDir → List (String × String) →
    (TempDir × List (String × String)) × RandSrc
  | [], r, d, m => ((d, m), r)
  | f :: rest, r, d, m =>
    let (new_filename, r1) := generate_random_filename r
    let m1 := m ++ [(f.name, new_filename)]
    if ioFail f.name then randomizeLoop ioFail rest r1 d m1
    else
      let (content, r2) := transformLines f.lines r1
      randomizeLoop ioFail rest r2 (writeFile d new_filename content) m1

/-- create_randomized_fasta_files from src/generate_dummy_tsv.py
(lines 31-85): sort the source files by name, return (None, []) when there
are none, else process each file into the scratch directory. -/
def create_randomized_fasta_files (sourceFiles : List SourceFile)
    (ioFail : String → Bool) (r : RandSrc) :
    Option (TempDir × List (String × String)) × RandSrc :=
  let sorted := List.insertionSort (fun a b => pyStrLe a.name b.name = true) sourceFiles
  match sorted with
  | [] => (none, r)
  | _ :: _ =>
    let p := randomizeLoop ioFail sorted r [] []
    (some p.1, p.2)

/-- The header lines of one randomized file, as HeaderEntry pairs
(src/generate_dummy_tsv.py lines 97-103): strip each line, keep those that
then start with the record marker, and drop that marker. -/
def extractFileHeaders (new_name : String) (lines : List String) : List HeaderEntry :=
  lines.filterMap (fun line =>
    let s := pyStrip line
    if pyStartsWith s ">" then some (new_name, pySlice1 s) else none)

/-- extract_headers_from_temp_dir from src/generate_dummy_tsv.py
(lines 88-107): walk the mapping in order; a read error (injected by
readFail) or a missing file is logged and skipped. -/
def extract_headers_from_temp_dir (d : TempDir) (mapping : List (String × String))
    (readFail : String → Bool) : List HeaderEntry :=
  mapping.flatMap (fun p =>
    if readFail p.2 then []
    else
      match d.lookup p.2 with
      | some lines => extractFileHeaders p.2 lines
      | none => [])

/-- The files main selects for the archive (src/generate_dummy_tsv.py lines
266-275): the sorted unique file names of the extracted entries, truncated
to the requested spread (defaulting to all of them). -/
def selectedFilesOf (full : List HeaderEntry) (spreadArg : Option Nat) : List String :=
  let all_unique_files :=
    List.insertionSort (fun a b => pyStrLe a b = true) ((full.map Prod.fst).dedup)
  all_unique_files.take (min (spreadArg.getD all_unique_files.length) all_unique_files.length)

/-- The FASTA entries the zip loop writes (lines 316-321): each selected
file that exists in the scratch directory, in order; a missing one is
only warned about. -/
def archiveSeqFiles (temp_dir : TempDir) (selected_files : List String) : List String :=
  selected_files.filter (fun f => (temp_dir.lookup f).isSome)

/-- How a run of main in src/generate_dummy_tsv.py ends. -/
inductive RunOutcome : Type where
  | earlyNoFasta
  | earlyNoEntries
  | earlyNoData
  | raised
  | completed

/-- The externally observable result of a run of main: how it ended, the
archive entry names when one was produced, the generated rows, and the
lifecycle of the two temporary resources. -/
structure RunResult where
  outcome : RunOutcome
  archive : Option (List String)
  rows : List Row
  tsvCreated : Bool
  tsvDeleted : Bool
  dirCreated : Bool
  dirDeleted : Bool

/-- main from src/generate_dummy_tsv.py (lines 232-334) with the
filesystem and the zip library abstracted.  zipRaises injects an exception
while the archive is being written; the try/finally makes the scratch
directory removal unconditional once the directory exists, while the
temporary TSV unlink on line 324 runs only when the zip write returns.
The archive holds the TSV entry followed by each selected FASTA file that
exists in the scratch directory. -/
def runPipelineA (schema : Schema) (num_rows : Nat) (spreadArg : Option Nat)
    (tsvName : String) (sourceFiles : List SourceFile)
    (writeFail readFail : String → Bool) (zipRaises : Bool)
    (today : Int) (r : RandSrc) : RunResult :=
  match create_randomized_fasta_files sourceFiles writeFail r with
  | (none, _) =>
    { outcome := .earlyNoFasta, archive := none, rows := [],
      tsvCreated := false, tsvDeleted := false, dirCreated := false, dirDeleted := false }
  | (some (temp_dir, file_mapping), r1) =>
    let full_fasta_list := extract_headers_from_temp_dir temp_dir file_mapping readFail
    if full_fasta_list.isEmpty then
      { outcome := .earlyNoEntries, archive := none, rows := [],
        tsvCreated := false, tsvDeleted := false, dirCreated := true, dirDeleted := true }
    else
      let selected_files := selectedFilesOf full_fasta_list spreadArg
      let fasta_list := full_fasta_list.filter (fun e => selected_files.contains e.1)
      match generate_dummy_data today schema num_rows fasta_list true r1 with
      | none =>
        { outcome := .raised, archive := none, rows := [],
          tsvCreated := false, tsvDeleted := false, dirCreated := true, dirDeleted := true }
      | some (data, _) =>
        if data.isEmpty then
          { outcome := .earlyNoData, archive := none, rows := data,
            tsvCreated := false, tsvDeleted := false, dirCreated := true, dirDeleted := true }
        else if zipRaises then
          { outcome := .raised, archive := none, rows := data,
            tsvCreated := true, tsvDeleted := false, dirCreated := true, dirDeleted := true }
        else
          { outcome := .completed,
            archive := some (tsvName :: archiveSeqFiles temp_dir selected_files),
            rows := data,
            tsvCreated := true, tsvDeleted := true, dirCreated := true, dirDeleted := true }

/-- The randomized file names referenced by the fasta_file_name field of at
least one generated row. -/
def referencedFiles (rows : List Row) : List String :=
  rows.filterMap (fun row =>
    match row.lookup "fasta_file_name" with
    | some (.str s) => some s
    | _ => none)

/-!  Supporting lemmas about the random primitives. -/

lemma randChars_length (k : Nat) : ∀ r : RandSrc, (randChars k r).1.length = k := by
  induction k with
  | zero => intro r; rfl
  | succ k ih =>
    intro r
    simp only [randChars, RandSrc.next]
    rcases h : randChars k { r with pos := r.pos + 1 } with ⟨cs, r2⟩
    have hx := ih { r with pos := r.pos + 1 }
    rw [h] at hx
    simpa using hx

lemma generate_random_string_length (k : Nat) (r : RandSrc) :
    (generate_random_string k r).1.length = k := by
  rcases h : randChars k r with ⟨cs, r1⟩
  have hx := randChars_length k r
  rw [h] at hx
  simp [generate_random_string, h, String.length_mk]
  exact hx

lemma randint_eq_some {lo hi : Int} {r : RandSrc} {n : Int} {r1 : RandSrc}
    (h : randint lo hi r = some (n, r1)) : lo ≤ n ∧ n ≤ hi := by
  unfold randint at h
  split at h
  · rename_i hle
    simp only [RandSrc.next, Option.some.injEq, Prod.mk.injEq] at h
    obtain ⟨hn, -⟩ := h
    have hmod : r.stream r.pos % (hi + 1 - lo).toNat < (hi + 1 - lo).toNat :=
      Nat.mod_lt _ (by omega)
    have hn2 : lo + ((r.stream r.pos % (hi + 1 - lo).toNat : Nat) : Int) = n := hn
    omega
  · exact absurd h (by simp)

lemma sample_eq_some {α : Type} {l : List α} {k : Nat} {r : RandSrc}
    {out : List α × RandSrc} (h : sample l k r = some out) :
    k ≤ l.length ∧ out = sampleAux k l r := by
  unfold sample at h
  split at h
  · rename_i hk
    injection h with h1
    exact ⟨hk, h1.symm⟩
  · exact absurd h (by simp)

lemma sampleAux_length {α : Type} (k : Nat) :
    ∀ (l : List α) (r : RandSrc), k ≤ l.length → (sampleAux k l r).1.length = k := by
  induction k with
  | zero => intro l r _; rfl
  | succ k ih =>
    intro l r hk
    match l with
    | [] => simp at hk
    | a :: t =>
      simp only [sampleAux, RandSrc.next]
      rcases h : sampleAux k ((a :: t).eraseIdx (r.stream r.pos % (a :: t).length))
          { r with pos := r.pos + 1 } with ⟨rest, r2⟩
      have hi : r.stream r.pos % (a :: t).length < (a :: t).length :=
        Nat.mod_lt _ (Nat.succ_pos _)
      have hlen : ((a :: t).eraseIdx (r.stream r.pos % (a :: t).length)).length
          = (a :: t).length - 1 := by
        rw [List.length_eraseIdx, if_pos hi]
      have hrec := ih ((a :: t).eraseIdx (r.stream r.pos % (a :: t).length))
        { r with pos := r.pos + 1 }
        (by rw [hlen]; simp only [List.length_cons] at hk ⊢; omega)
      rw [h] at hrec
      simpa using hrec

lemma sampleAux_subset {α : Type} (k : Nat) :
    ∀ (l : List α) (r : RandSrc) (x : α), x ∈ (sampleAux k l r).1 → x ∈ l := by
  induction k with
  | zero => intro l r x hx; simp [sampleAux] at hx
  | succ k ih =>
    intro l r x hx
    match l with
    | [] => simp [sampleAux] at hx
    | a :: t =>
      simp only [sampleAux, RandSrc.next] at hx
      rcases h : sampleAux k ((a :: t).eraseIdx (r.stream r.pos % (a :: t).length))
          { r with pos := r.pos + 1 } with ⟨rest, r2⟩
      rw [h] at hx
      have hi : r.stream r.pos % (a :: t).length < (a :: t).length :=
        Nat.mod_lt _ (Nat.succ_pos _)
      simp only [List.mem_cons] at hx
      rcases hx with hx | hx
      · rw [hx, List.getD_eq_getElem _ _ hi]
        exact List.getElem_mem hi
      · have hmem := ih _ { r with pos := r.pos + 1 } x (by rw [h]; exact hx)
        exact ((a :: t).eraseIdx_sublist _).mem hmem

lemma sampleAux_nodup {α : Type} (k : Nat) :
    ∀ (l : List α) (r : RandSrc), l.Nodup → (sampleAux k l r).1.Nodup := by
  induction k with
  | zero => intro l r _; simp [sampleAux]
  | succ k ih =>
    intro l r hnd
    match l with
    | [] => simp [sampleAux]
    | a :: t =>
      simp only [sampleAux, RandSrc.next]
      rcases h : sampleAux k ((a :: t).eraseIdx (r.stream r.pos % (a :: t).length))
          { r with pos := r.pos + 1 } with ⟨rest, r2⟩
      have hi : r.stream r.pos % (a :: t).length < (a :: t).length :=
        Nat.mod_lt _ (Nat.succ_pos _)
      have herase : ((a :: t).eraseIdx (r.stream r.pos % (a :: t).length)).Nodup :=
        ((a :: t).eraseIdx_sublist _).nodup hnd
      have hrest : rest.Nodup := by
        have hx := ih _ { r with pos := r.pos + 1 } herase
        rwa [h] at hx
      have hxmem : (a :: t).getD (r.stream r.pos % (a :: t).length) a ∉ rest := by
        intro hmem
        have hsub := sampleAux_subset k _ { r with pos := r.pos + 1 } _ (by rw [h]; exact hmem)
        rw [List.getD_eq_getElem _ _ hi] at hsub
        rw [List.mem_eraseIdx_iff_getElem] at hsub
        obtain ⟨j, hj, hne, heq⟩ := hsub
        exact hne (hnd.getElem_inj_iff.mp heq)
      exact List.nodup_cons.mpr ⟨hxmem, hrest⟩

lemma randStrings_spec (k : Nat) : ∀ r : RandSrc, (randStrings k r).1.length = k ∧
    ∀ x ∈ (randStrings k r).1, ∃ s, x = Value.str s ∧ s.length = 20 := by
  induction k with
  | zero => intro r; simp [randStrings]
  | succ k ih =>
    intro r
    simp only [randStrings]
    rcases hg : generate_random_string 20 r with ⟨s, r1⟩
    rcases h : randStrings k r1 with ⟨rest, r2⟩
    have hs : s.length = 20 := by
      have hx := generate_random_string_length 20 r
      rw [hg] at hx
      exact hx
    have hx := ih r1
    rw [h] at hx
    refine ⟨by simpa using hx.1, ?_⟩
    intro x hmem
    simp only [List.mem_cons] at hmem
    rcases hmem with hmem | hmem
    · exact ⟨s, hmem, hs⟩
    · exact hx.2 x hmem

lemma formatDate_length_pos (d : Int) : 0 < (formatDate d).length := by
  have h1 : ("-" : String).length = 1 := rfl
  simp [formatDate, String.length_append, h1]

/-!  Claims C6, C7, C8. -/

/-- C6: a file upload counts as a success exactly for HTTP status 200 or
201 and as a failure otherwise, exceptions included; the process exits 1
exactly when the folder argument is invalid or some upload failed, and 0
exactly when the folder is valid and either no file matched or every
upload succeeded. -/
theorem C6_upload_success_and_exit :
    (∀ resp : HttpOutcome, upload_file resp = true ↔
      (resp = .status 200 ∨ resp = .status 201)) ∧
    (∀ (fe fd : Bool) (files : List String) (resp : String → HttpOutcome),
      (uploadMainExit fe fd files resp = 1 ↔
        (fe = false ∨ fd = false ∨ ∃ f ∈ files, upload_file (resp f) = false)) ∧
      (uploadMainExit fe fd files resp = 0 ↔
        (fe = true ∧ fd = true ∧
          (files = [] ∨ ∀ f ∈ files, upload_file (resp f) = true)))) := by
  constructor
  · intro resp
    cases resp with
    | status code =>
      simp only [upload_file, decide_eq_true_eq, HttpOutcome.status.injEq]
    | exc msg => simp [upload_file]
  · intro fe fd files resp
    cases fe with
    | false => simp [uploadMainExit]
    | true =>
      cases fd with
      | false => simp [uploadMainExit]
      | true =>
        by_cases hemp : files = []
        · subst hemp
          simp [uploadMainExit]
        · have hne : files.isEmpty = false := by
            simpa [List.isEmpty_iff] using hemp
          rcases Classical.em (∃ f ∈ files, upload_file (resp f) = false) with hfail | hfail
          · obtain ⟨f0, hf0, hup0⟩ := hfail
            have hpos : 0 < ((List.insertionSort (fun a b => pyStrLe a b = true) files).filter
                (fun f => !upload_file (resp f))).length := by
              rw [List.length_pos]
              intro hnil
              rw [List.filter_eq_nil_iff] at hnil
              exact hnil f0 ((List.mem_insertionSort _).mpr hf0) (by simp [hup0])
            have hexit : uploadMainExit true true files resp = 1 := by
              simp only [uploadMainExit, hne, Bool.not_true, Bool.false_eq_true,
                if_false, gt_iff_lt]
              rw [if_pos hpos]
            rw [hexit]
            refine ⟨⟨fun _ => Or.inr (Or.inr ⟨f0, hf0, hup0⟩), fun _ => rfl⟩, ?_, ?_⟩
            · intro h01
              exact absurd h01 (by omega)
            · rintro ⟨-, -, hall⟩
              rcases hall with h | hall
              · exact absurd h hemp
              · have hx := hall f0 hf0
                rw [hup0] at hx
                exact absurd hx (by simp)
          · have hall : ∀ f ∈ files, upload_file (resp f) = true := by
              intro f hf
              by_cases hb : upload_file (resp f) = true
              · exact hb
              · exact absurd ⟨f, hf, by simpa using hb⟩ hfail
            have hz : ((List.insertionSort (fun a b => pyStrLe a b = true) files).filter
                (fun f => !upload_file (resp f))).length = 0 := by
              simp only [List.length_eq_zero, List.filter_eq_nil_iff]
              intro f hf
              simp [hall f ((List.mem_insertionSort _).mp hf)]
            have hnpos : ¬ (((List.insertionSort (fun a b => pyStrLe a b = true) files).filter
                (fun f => !upload_file (resp f))).length > 0) := by omega
            have hexit : uploadMainExit true true files resp = 0 := by
              simp only [uploadMainExit, hne, Bool.not_true, Bool.false_eq_true,
                if_false, gt_iff_lt]
              rw [if_neg hnpos]
            rw [hexit]
            refine ⟨⟨fun h => absurd h (by omega), ?_⟩,
              fun _ => ⟨rfl, rfl, Or.inr hall⟩, fun _ => rfl⟩
            rintro (h | h | ⟨f, hf, hup⟩)
            · exact absurd h (by simp)
            · exact absurd h (by simp)
            · rw [hall f hf] at hup
              exact absurd hup (by simp)

/-- Witness that C6_upload_success_and_exit applies at concrete inputs:
one run with a 500 response exits 1, one with all 200 responses exits 0. -/
theorem C6_upload_success_and_exit_witness :
    uploadMainExit true true ["a", "b"] (fun f => if f = "a" then .status 500 else .status 200) = 1 ∧
    uploadMainExit true true ["a", "b"] (fun _ => .status 200) = 0 := by
  constructor
  · exact (((C6_upload_success_and_exit.2 true true ["a", "b"]
      (fun f => if f = "a" then .status 500 else .status 200)).1).mpr
      (Or.inr (Or.inr ⟨"a", by simp, by simp [upload_file]⟩)))
  · exact (((C6_upload_success_and_exit.2 true true ["a", "b"]
      (fun _ => .status 200)).2).mpr
      ⟨rfl, rfl, Or.inr (fun f _ => by simp [upload_file])⟩)

/-- C7 (amended): for an array-typed descriptor without a top-level enum,
whenever generate_dummy_value returns it returns a list of 1 to 3 values;
with an item enum the length is at most min(3, enum size), every element
belongs to the enum, and the values are drawn at pairwise-distinct
positions, hence pairwise distinct whenever the enum itself has no
duplicate members; without an item enum the elements are random
20-character strings. -/
theorem C7_array_field_values {today : Int} {d : Descr} {r : RandSrc}
    {v : Value} {r1 : RandSrc}
    (ht : d.type = some "array") (he : d.enum = none)
    (h : generate_dummy_value today d r = some (v, r1)) :
    ∃ vs, v = Value.list vs ∧ 1 ≤ vs.length ∧ vs.length ≤ 3 ∧
      (∀ es, (d.items.getD emptyDescr).enum = some es →
        vs.length ≤ min 3 es.length ∧ (∀ x ∈ vs, x ∈ es) ∧
        (es.Nodup → vs.Nodup)) ∧
      ((d.items.getD emptyDescr).enum = none →
        ∀ x ∈ vs, ∃ s, x = Value.str s ∧ s.length = 20) := by
  unfold generate_dummy_value at h
  rw [he, ht] at h
  simp only [Option.getD_some, if_true, eq_self_iff_true] at h
  split at h
  · rename_i es heq
    split at h
    · rename_i k rk hri
      split at h
      · rename_i vs r2 hs
        simp only [Option.some.injEq, Prod.mk.injEq] at h
        obtain ⟨rfl, -⟩ := h
        obtain ⟨hk1, hk2⟩ := randint_eq_some hri
        obtain ⟨hkle, hout⟩ := sample_eq_some hs
        have hvs : vs = (sampleAux k.toNat es rk).1 := congrArg Prod.fst hout
        have hk3 : (k.toNat : Int) = k := Int.toNat_of_nonneg (by omega)
        have hk4 : k ≤ (3 : Int) := (le_min_iff.mp hk2).1
        have hlen : vs.length = k.toNat := by
          rw [hvs]
          exact sampleAux_length k.toNat es rk hkle
        refine ⟨vs, rfl, by omega, by omega, ?_, ?_⟩
        · intro es2 hes2
          rw [heq] at hes2
          injection hes2 with hes2
          subst hes2
          refine ⟨by rw [hlen]; exact Nat.le_min.mpr ⟨by omega, hkle⟩, ?_, ?_⟩
          · intro x hx
            rw [hvs] at hx
            exact sampleAux_subset k.toNat es rk x hx
          · intro hnd
            rw [hvs]
            exact sampleAux_nodup k.toNat es rk hnd
        · intro habs
          rw [heq] at habs
          exact absurd habs (by simp)
      · exact absurd h (by simp)
    · exact absurd h (by simp)
  · rename_i heq
    split at h
    · rename_i k rk hri
      simp only [Option.some.injEq, Prod.mk.injEq] at h
      obtain ⟨rfl, -⟩ := h
      obtain ⟨hk1, hk2⟩ := randint_eq_some hri
      obtain ⟨hlen, hshape⟩ := randStrings_spec k.toNat rk
      have hk3 : (k.toNat : Int) = k := Int.toNat_of_nonneg (by omega)
      refine ⟨(randStrings k.toNat rk).1, rfl, by omega, by omega, ?_, fun _ => hshape⟩
      intro es2 hes2
      rw [heq] at hes2
      exact absurd hes2 (by simp)
    · exact absurd h (by simp)

/-- C7 counterexample to the claim as stated: with an item enum holding two
equal members, random.sample draws distinct positions but equal values, so
the returned list is not pairwise distinct. -/
theorem C7_counterexample :
    (generate_dummy_value 0
        (Descr.mk (some "array") none
          (some (Descr.mk none (some [Value.str "a", Value.str "a"]) none none none none))
          none none none)
        { stream := fun _ => 1, pos := 0 }).map Prod.fst =
      some (Value.list [Value.str "a", Value.str "a"]) ∧
    ¬ ([Value.str "a", Value.str "a"].Nodup) := by
  constructor
  · rfl
  · simp

/-- Witness that C7_array_field_values applies at a concrete input. -/
theorem C7_array_field_values_witness :
    ∃ vs, Value.list [Value.str "b", Value.str "a"] = Value.list vs ∧
      1 ≤ vs.length ∧ vs.length ≤ 3 ∧
      (∀ es, ((Descr.mk none (some [Value.str "a", Value.str "b"]) none none none none :
          Descr) : Descr).enum = some es →
        vs.length ≤ min 3 es.length ∧ (∀ x ∈ vs, x ∈ es) ∧
        (es.Nodup → vs.Nodup)) ∧
      (((Descr.mk none (some [Value.str "a", Value.str "b"]) none none none none :
          Descr) : Descr).enum = none →
        ∀ x ∈ vs, ∃ s, x = Value.str s ∧ s.length = 20) :=
  @C7_array_field_values 0
    (Descr.mk (some "array") none
      (some (Descr.mk none (some [Value.str "a", Value.str "b"]) none none none none))
      none none none)
    { stream := fun _ => 1, pos := 0 } _ _ rfl rfl rfl

/-- C8 (amended): without an enum, an integer-typed field is an integer in
[minimum, maximum] (defaulting to [1, 100]); a number-typed field is the
two-decimal rounding of a draw from [minimum, maximum], hence a multiple
of 1/100 lying within [minimum - 1/200, maximum + 1/200]; the rounding can
leave [minimum, maximum] itself when the bounds are tight fractions. -/
theorem C8_numeric_field_ranges {today : Int} {d : Descr} {r : RandSrc}
    {v : Value} {r1 : RandSrc} (he : d.enum = none) :
    (d.type = some "integer" →
      generate_dummy_value today d r = some (v, r1) →
      ∃ n : Int, v = Value.int n ∧
        d.minimum.getD 1 ≤ (n : ℚ) ∧ (n : ℚ) ≤ d.maximum.getD 100) ∧
    (d.type = some "number" →
      d.minimum.getD 1 ≤ d.maximum.getD 100 →
      generate_dummy_value today d r = some (v, r1) →
      ∃ x : ℚ, d.minimum.getD 1 ≤ x ∧ x ≤ d.maximum.getD 100 ∧
        v = Value.num (roundTo2 x) ∧ (∃ z : ℤ, roundTo2 x = (z : ℚ) / 100) ∧
        d.minimum.getD 1 - 1/200 ≤ roundTo2 x ∧
        roundTo2 x ≤ d.maximum.getD 100 + 1/200) := by
  constructor
  · intro ht h
    unfold generate_dummy_value at h
    rw [he, ht] at h
    simp only [Option.getD_some] at h
    rw [if_neg (by decide), if_neg (by decide), if_pos (by simp),
      if_neg (by decide)] at h
    split at h
    · rename_i hden
      split at h
      · rename_i n rn hri
        simp only [Option.some.injEq, Prod.mk.injEq] at h
        obtain ⟨rfl, -⟩ := h
        obtain ⟨h1, h2⟩ := randint_eq_some hri
        refine ⟨n, rfl, ?_, ?_⟩
        · calc d.minimum.getD 1 = ((d.minimum.getD 1).num : ℚ) :=
                ((Rat.den_eq_one_iff _).mp hden.1).symm
            _ ≤ (n : ℚ) := by exact_mod_cast h1
        · calc (n : ℚ) ≤ ((d.maximum.getD 100).num : ℚ) := by exact_mod_cast h2
            _ = d.maximum.getD 100 := (Rat.den_eq_one_iff _).mp hden.2
      · exact absurd h (by simp)
    · exact absurd h (by simp)
  · intro ht hminmax h
    unfold generate_dummy_value at h
    rw [he, ht] at h
    simp only [Option.getD_some] at h
    rw [if_neg (by decide), if_neg (by decide), if_pos (by simp)] at h
    rw [if_pos (by trivial)] at h
    simp only [Option.some.injEq, Prod.mk.injEq] at h
    obtain ⟨rfl, -⟩ := h
    set lo := d.minimum.getD 1 with hlo
    set hi := d.maximum.getD 100 with hhi
    set u : ℚ := ((r.stream r.pos % 1000000 : Nat) : ℚ) / 1000000 with hu
    have hu0 : 0 ≤ u := by positivity
    have hu1 : u ≤ 1 := by
      rw [hu]
      rw [div_le_one (by norm_num)]
      have : (r.stream r.pos % 1000000 : Nat) < 1000000 := Nat.mod_lt _ (by norm_num)
      exact_mod_cast this.le
    have hx : (uniform lo hi r).1 = lo + (hi - lo) * u := rfl
    refine ⟨(uniform lo hi r).1, ?_, ?_, rfl, ⟨round ((uniform lo hi r).1 * 100), rfl⟩, ?_, ?_⟩
    · rw [hx]
      nlinarith
    · rw [hx]
      nlinarith
    · have habs := abs_sub_round ((uniform lo hi r).1 * 100)
      rw [abs_le] at habs
      have hxin : lo ≤ (uniform lo hi r).1 := by rw [hx]; nlinarith
      unfold roundTo2
      rw [div_le_iff₀ (by norm_num), sub_le_iff_le_add] at *
      nlinarith [habs.1, habs.2]
    · have habs := abs_sub_round ((uniform lo hi r).1 * 100)
      rw [abs_le] at habs
      have hxin : (uniform lo hi r).1 ≤ hi := by rw [hx]; nlinarith
      unfold roundTo2
      nlinarith [habs.1, habs.2]

/-- C8 counterexample to the claim as stated: a number-typed field with
minimum 1/1000 and maximum 1/500 yields 0 after rounding to two decimals,
which lies below the minimum. -/
theorem C8_counterexample :
    generate_dummy_value 0
        (Descr.mk (some "number") none none none (some (1/1000)) (some (1/500)))
        { stream := fun _ => 500000, pos := 0 } =
      some (Value.num 0, { stream := fun _ => 500000, pos := 1 }) ∧
    ¬ ((1 : ℚ)/1000 ≤ 0) := by
  constructor
  · have h1 : uniform (1/1000) (1/500) { stream := fun _ => 500000, pos := 0 } =
        (3/2000, { stream := fun _ => 500000, pos := 1 }) := by
      unfold uniform RandSrc.next
      norm_num
    have h2 : roundTo2 (3/2000) = 0 := by
      unfold roundTo2
      norm_num [round_eq]
    unfold generate_dummy_value
    simp only [Descr.enum, Descr.type, Descr.minimum, Descr.maximum, Option.getD_some]
    rw [if_neg (by decide), if_neg (by decide), if_pos (by simp)]
    rw [if_pos (by trivial), h1]
    simp [h2]
  · norm_num

/-- Witness that C8_numeric_field_ranges applies at concrete inputs: an
integer descriptor with bounds [5, 7] and a number descriptor with bounds
[1, 1]. -/
theorem C8_numeric_field_ranges_witness :
    (∃ n : Int, Value.int 5 = Value.int n ∧
      (Descr.mk (some "integer") none none none (some 5) (some 7)).minimum.getD 1 ≤ (n : ℚ) ∧
      (n : ℚ) ≤ (Descr.mk (some "integer") none none none (some 5) (some 7)).maximum.getD 100) ∧
    (∃ x : ℚ, (Descr.mk (some "number") none none none (some 1) (some 1)).minimum.getD 1 ≤ x ∧
      x ≤ (Descr.mk (some "number") none none none (some 1) (some 1)).maximum.getD 100 ∧
      Value.num 1 = Value.num (roundTo2 x) ∧
      (∃ z : ℤ, roundTo2 x = (z : ℚ) / 100) ∧
      (Descr.mk (some "number") none none none (some 1) (some 1)).minimum.getD 1 - 1/200 ≤ roundTo2 x ∧
      roundTo2 x ≤ (Descr.mk (some "number") none none none (some 1) (some 1)).maximum.getD 100 + 1/200) := by
  constructor
  · exact (@C8_numeric_field_ranges 0
      (Descr.mk (some "integer") none none none (some 5) (some 7))
      { stream := fun _ => 0, pos := 0 } (Value.int 5)
      { stream := fun _ => 0, pos := 1 } rfl).1 rfl rfl
  · refine (@C8_numeric_field_ranges 0
      (Descr.mk (some "number") none none none (some 1) (some 1))
      { stream := fun _ => 0, pos := 0 } (Value.num 1)
      { stream := fun _ => 0, pos := 1 } rfl).2 rfl
      (by simp [Descr.minimum, Descr.maximum]) ?_
    have h1 : uniform 1 1 { stream := fun _ => 0, pos := 0 } =
        (1, { stream := fun _ => 0, pos := 1 }) := by
      unfold uniform RandSrc.next
      norm_num
    have h2 : roundTo2 1 = 1 := by
      unfold roundTo2
      norm_num [round_eq]
    unfold generate_dummy_value
    simp only [Descr.enum, Descr.type, Descr.minimum, Descr.maximum, Option.getD_some]
    rw [if_neg (by decide), if_neg (by decide), if_pos (by simp)]
    rw [if_pos (by trivial), h1]
    simp [h2]

/-!  Lemmas about dict assignment and lookup on rows. -/

lemma setKey_map_fst_mem (row : Row) (k0 k : String) (v : Value) :
    k ∈ (setKey row k0 v).map Prod.fst ↔ (k ∈ row.map Prod.fst ∨ k = k0) := by
  unfold setKey
  by_cases hany : row.any (fun p => p.1 == k0)
  · rw [if_pos hany]
    have hfst : ((row.map (fun p => if p.1 == k0 then (p.1, v) else p)).map Prod.fst)
        = row.map Prod.fst := by
      rw [List.map_map]
      apply List.map_congr_left
      intro p _
      dsimp only [Function.comp_apply]
      split <;> rfl
    rw [hfst]
    simp only [List.any_eq_true, beq_iff_eq] at hany
    obtain ⟨p, hp, hpk⟩ := hany
    constructor
    · exact Or.inl
    · rintro (hk | rfl)
      · exact hk
      · rw [← hpk]
        exact List.mem_map_of_mem _ hp
  · rw [if_neg hany]
    simp [or_comm]

lemma mapOverwrite_lookup_self (row : Row) (k0 : String) (v : Value) :
    (row.map (fun p => if p.1 == k0 then (p.1, v) else p)).lookup k0 =
      (row.lookup k0).map (fun _ => v) := by
  induction row with
  | nil => rfl
  | cons p rest ih =>
    simp only [List.map_cons]
    by_cases hp : p.1 = k0
    · rw [if_pos (by simpa using hp)]
      simp [List.lookup, show (k0 == p.1) = true by simpa using hp.symm]
    · rw [if_neg (by simpa using hp)]
      simp only [List.lookup, show (k0 == p.1) = false by simpa using fun h => hp h.symm]
      exact ih

lemma mapOverwrite_lookup_ne (row : Row) {k0 k : String} (v : Value) (h : ¬ k = k0) :
    (row.map (fun p => if p.1 == k0 then (p.1, v) else p)).lookup k = row.lookup k := by
  induction row with
  | nil => rfl
  | cons p rest ih =>
    simp only [List.map_cons]
    by_cases hp : p.1 = k0
    · rw [if_pos (by simpa using hp)]
      simp only [List.lookup,
        show (k == p.1) = false by simpa using fun hx => h (hx.trans hp)]
      exact ih
    · rw [if_neg (by simpa using hp)]
      by_cases hk : k = p.1
      · simp [List.lookup, show (k == p.1) = true by simpa using hk]
      · simp only [List.lookup, show (k == p.1) = false by simpa using hk]
        exact ih

lemma setKey_lookup_self (row : Row) (k0 : String) (v : Value) :
    (setKey row k0 v).lookup k0 = some v := by
  unfold setKey
  by_cases hany : row.any (fun p => p.1 == k0)
  · rw [if_pos hany, mapOverwrite_lookup_self]
    simp only [List.any_eq_true, beq_iff_eq] at hany
    obtain ⟨p, hp, hpk⟩ := hany
    have hsome : row.lookup k0 ≠ none := by
      rw [Ne, List.lookup_eq_none_iff]
      push_neg
      exact ⟨p, hp, by simpa using hpk.symm⟩
    cases hx : row.lookup k0 with
    | none => exact absurd hx hsome
    | some w => simp
  · rw [if_neg hany, List.lookup_append]
    have hnone : row.lookup k0 = none := by
      rw [List.lookup_eq_none_iff]
      intro p hp
      simp only [List.any_eq_true, beq_iff_eq] at hany
      push_neg at hany
      simpa using fun h => hany p hp h.symm
    rw [hnone]
    simp [List.lookup]

lemma setKey_lookup_ne (row : Row) {k0 k : String} (v : Value) (h : ¬ k = k0) :
    (setKey row k0 v).lookup k = row.lookup k := by
  unfold setKey
  by_cases hany : row.any (fun p => p.1 == k0)
  · rw [if_pos hany, mapOverwrite_lookup_ne _ _ h]
  · rw [if_neg hany, List.lookup_append]
    have : List.lookup k [(k0, v)] = none := by
      simp [List.lookup, show (k == k0) = false by simpa using h]
    rw [this, Option.or_none]

lemma generate_random_date_length_pos (today : Int) (r : RandSrc) :
    0 < (generate_random_date today r).1.length := by
  unfold generate_random_date RandSrc.next
  exact formatDate_length_pos _

lemma lookup_some_mem {row : Row} {k : String} {v : Value}
    (h : row.lookup k = some v) : k ∈ row.map Prod.fst := by
  by_contra hmem
  have : row.lookup k = none := by
    rw [List.lookup_eq_none_iff]
    intro p hp
    simp only [bne_iff_ne, ne_eq]
    intro hk
    exact hmem (hk ▸ List.mem_map_of_mem _ hp)
  rw [this] at h
  exact absurd h (by simp)

/-- For a descriptor with no enum whose type is neither number nor integer,
every value generate_dummy_value returns is truthy: a 20-character string,
a non-empty date string, or a list of at least one element. -/
lemma gdv_truthy {today : Int} {d : Descr} {r : RandSrc} {v : Value} {r1 : RandSrc}
    (he : d.enum = none)
    (hn : ¬ d.type.getD "string" = "number") (hi : ¬ d.type.getD "string" = "integer")
    (h : generate_dummy_value today d r = some (v, r1)) : v.truthy = true := by
  unfold generate_dummy_value at h
  simp only [he] at h
  by_cases ha : d.type.getD "string" = "array"
  · rw [if_pos ha] at h
    split at h
    · rename_i es heq
      split at h
      · rename_i k rk hri
        split at h
        · rename_i vs r2 hs
          simp only [Option.some.injEq, Prod.mk.injEq] at h
          obtain ⟨rfl, -⟩ := h
          obtain ⟨hk1, -⟩ := randint_eq_some hri
          obtain ⟨hkle, hout⟩ := sample_eq_some hs
          have hvs : vs = (sampleAux k.toNat es rk).1 := congrArg Prod.fst hout
          have hlen : vs.length = k.toNat := by
            rw [hvs]
            exact sampleAux_length k.toNat es rk hkle
          simp only [Value.truthy, decide_eq_true_eq]
          omega
        · exact absurd h (by simp)
      · exact absurd h (by simp)
    · rename_i heq
      split at h
      · rename_i k rk hri
        simp only [Option.some.injEq, Prod.mk.injEq] at h
        obtain ⟨rfl, -⟩ := h
        obtain ⟨hk1, -⟩ := randint_eq_some hri
        have hlen := (randStrings_spec k.toNat rk).1
        simp only [Value.truthy, decide_eq_true_eq]
        omega
      · exact absurd h (by simp)
  · rw [if_neg ha] at h
    by_cases hs : d.type.getD "string" = "string"
    · rw [if_pos hs] at h
      by_cases hf : d.format = some "date"
      · rw [if_pos hf] at h
        simp only [Option.some.injEq, Prod.mk.injEq] at h
        obtain ⟨rfl, -⟩ := h
        have := generate_random_date_length_pos today r
        simp only [Value.truthy, decide_eq_true_eq]
        omega
      · rw [if_neg hf] at h
        simp only [Option.some.injEq, Prod.mk.injEq] at h
        obtain ⟨rfl, -⟩ := h
        have := generate_random_string_length 20 r
        simp only [Value.truthy, decide_eq_true_eq]
        omega
    · rw [if_neg hs, if_neg (by tauto)] at h
      simp only [Option.some.injEq, Prod.mk.injEq] at h
      obtain ⟨rfl, -⟩ := h
      have := generate_random_string_length 20 r
      simp only [Value.truthy, decide_eq_true_eq]
      omega

/-- One step of the properties loop: whatever branch fires, the result is
the loop on the remaining properties from a row extended at the current
property name. -/
lemma genRowProps_cons_shape {today : Int} {fl : List HeaderEntry} {name : String}
    {dsc : Descr} {rest : List (String × Descr)} {idx : Nat} {r : RandSrc} {row : Row}
    {out : Row × Nat × RandSrc}
    (h : genRowProps today fl ((name, dsc) :: rest) idx r row = some out) :
    ∃ w idx2 r2, genRowProps today fl rest idx2 r2 (setKey row name w) = some out := by
  unfold genRowProps at h
  by_cases h1 : name = "fasta_file_name"
  · rw [if_pos h1] at h
    cases fl with
    | nil =>
      rcases hg : generate_random_string 20 r with ⟨s, r1⟩
      rw [hg] at h
      exact ⟨_, _, _, h⟩
    | cons a t => exact ⟨_, _, _, h⟩
  · rw [if_neg h1] at h
    by_cases h2 : name = "fasta_header_name"
    · rw [if_pos h2] at h
      cases fl with
      | nil =>
        rcases hg : generate_random_string 20 r with ⟨s, r1⟩
        rw [hg] at h
        exact ⟨_, _, _, h⟩
      | cons a t => exact ⟨_, _, _, h⟩
    · rw [if_neg h2] at h
      cases hg : generate_dummy_value today dsc r with
      | none => rw [hg] at h; exact absurd h (by simp)
      | some p =>
        rw [hg] at h
        obtain ⟨w, r2⟩ := p
        exact ⟨_, _, _, h⟩

lemma genRowProps_keys {today : Int} {fl : List HeaderEntry} :
    ∀ (props : List (String × Descr)) (idx : Nat) (r : RandSrc) (row : Row)
      (out : Row × Nat × RandSrc),
      genRowProps today fl props idx r row = some out →
      ∀ k, k ∈ out.1.map Prod.fst ↔
        (k ∈ row.map Prod.fst ∨ k ∈ props.map Prod.fst) := by
  intro props
  induction props with
  | nil =>
    intro idx r row out h k
    unfold genRowProps at h
    simp only [Option.some.injEq] at h
    rw [← h]
    simp
  | cons p rest ih =>
    intro idx r row out h k
    obtain ⟨name, dsc⟩ := p
    obtain ⟨w, idx2, r2, h2⟩ := genRowProps_cons_shape h
    rw [ih _ _ _ _ h2 k, setKey_map_fst_mem]
    simp only [List.map_cons, List.mem_cons]
    tauto

/-- One step of the required backfill: either the field was present and
truthy and the row is unchanged, or (absent or falsy) it is reassigned a
freshly synthesized value. -/
lemma backfill_cons_shape {today : Int} {props : List (String × Descr)} {req : String}
    {rest : List String} {r : RandSrc} {row : Row} {out : Row × RandSrc}
    (h : backfillRequired today props (req :: rest) r row = some out) :
    (∃ v, row.lookup req = some v ∧ v.truthy = true ∧
      backfillRequired today props rest r row = some out) ∨
    ((row.lookup req = none ∨ ∃ u, row.lookup req = some u ∧ u.truthy = false) ∧
      ∃ w r2, generate_dummy_value today ((props.lookup req).getD emptyDescr) r = some (w, r2) ∧
        backfillRequired today props rest r2 (setKey row req w) = some out) := by
  unfold backfillRequired at h
  split at h
  · rename_i v hl
    by_cases ht : v.truthy
    · rw [if_pos ht] at h
      exact Or.inl ⟨v, hl, ht, h⟩
    · rw [if_neg ht] at h
      split at h
      · rename_i nv r2 hg
        exact Or.inr ⟨Or.inr ⟨v, hl, by simpa using ht⟩, nv, r2, hg, h⟩
      · exact absurd h (by simp)
  · rename_i hl
    split at h
    · rename_i nv r2 hg
      exact Or.inr ⟨Or.inl hl, nv, r2, hg, h⟩
    · exact absurd h (by simp)

lemma backfill_keys {today : Int} {props : List (String × Descr)} :
    ∀ (reqs : List String) (r : RandSrc) (row : Row) (out : Row × RandSrc),
      backfillRequired today props reqs r row = some out →
      ∀ k, k ∈ out.1.map Prod.fst ↔ (k ∈ row.map Prod.fst ∨ k ∈ reqs) := by
  intro reqs
  induction reqs with
  | nil =>
    intro r row out h k
    unfold backfillRequired at h
    simp only [Option.some.injEq] at h
    rw [← h]
    simp
  | cons req rest ih =>
    intro r row out h k
    rcases backfill_cons_shape h with ⟨v, hl, -, h2⟩ | ⟨-, w, r2, -, h2⟩
    · rw [ih _ _ _ h2 k]
      simp only [List.mem_cons]
      constructor
      · tauto
      · rintro (hk | rfl | hk)
        · exact Or.inl hk
        · exact Or.inl (lookup_some_mem hl)
        · exact Or.inr hk
    · rw [ih _ _ _ h2 k, setKey_map_fst_mem]
      simp only [List.mem_cons]
      tauto

lemma backfill_preserves {today : Int} {props : List (String × Descr)} :
    ∀ (reqs : List String) (r : RandSrc) (row : Row) (out : Row × RandSrc)
      (k : String) (v : Value),
      backfillRequired today props reqs r row = some out →
      row.lookup k = some v → v.truthy = true → out.1.lookup k = some v := by
  intro reqs
  induction reqs with
  | nil =>
    intro r row out k v h hl ht
    unfold backfillRequired at h
    simp only [Option.some.injEq] at h
    rw [← h]
    exact hl
  | cons req rest ih =>
    intro r row out k v h hl ht
    rcases backfill_cons_shape h with ⟨u, -, -, h2⟩ | ⟨hwhy, w, r2, -, h2⟩
    · exact ih _ _ _ _ _ h2 hl ht
    · by_cases hk : k = req
      · subst hk
        rcases hwhy with hnone | ⟨u, hu, hut⟩
        · rw [hl] at hnone
          exact absurd hnone (by simp)
        · rw [hl] at hu
          injection hu with hu
          subst hu
          rw [ht] at hut
          exact absurd hut (by simp)
      · refine ih _ _ _ _ _ h2 ?_ ht
        rw [setKey_lookup_ne _ _ hk]
        exact hl

lemma backfill_ensures {today : Int} {props : List (String × Descr)} :
    ∀ (reqs : List String) (r : RandSrc) (row : Row) (out : Row × RandSrc),
      backfillRequired today props reqs r row = some out →
      ∀ req ∈ reqs,
        ((props.lookup req).getD emptyDescr).enum = none →
        ¬ ((props.lookup req).getD emptyDescr).type.getD "string" = "number" →
        ¬ ((props.lookup req).getD emptyDescr).type.getD "string" = "integer" →
        ∃ v, out.1.lookup req = some v ∧ v.truthy = true := by
  intro reqs
  induction reqs with
  | nil => intro r row out h req hreq; simp at hreq
  | cons req0 rest ih =>
    intro r row out h req hreq he hn hi
    rcases List.mem_cons.mp hreq with rfl | hmem
    · rcases backfill_cons_shape h with ⟨v, hl, ht, h2⟩ | ⟨-, w, r2, hg, h2⟩
      · exact ⟨v, backfill_preserves _ _ _ _ _ _ h2 hl ht, ht⟩
      · have hwt : w.truthy = true := gdv_truthy he hn hi hg
        refine ⟨w, backfill_preserves _ _ _ _ _ _ h2 ?_ hwt, hwt⟩
        exact setKey_lookup_self _ _ _
    · rcases backfill_cons_shape h with ⟨v, -, -, h2⟩ | ⟨-, w, r2, -, h2⟩
      · exact ih _ _ _ h2 req hmem he hn hi
      · exact ih _ _ _ h2 req hmem he hn hi

lemma genRows_spec {today : Int} {schema : Schema} {fl : List HeaderEntry} :
    ∀ (n : Nat) (idx : Nat) (r : RandSrc) (out : List Row × RandSrc),
      genRows today schema fl n idx r = some out →
      out.1.length = n ∧
      ∀ row ∈ out.1, ∃ row1 idx0 r0 idx1 r1 r2,
        genRowProps today fl schema.properties idx0 r0 [] = some (row1, idx1, r1) ∧
        backfillRequired today schema.properties schema.required r1 row1 = some (row, r2) := by
  intro n
  induction n with
  | zero =>
    intro idx r out h
    unfold genRows at h
    simp only [Option.some.injEq] at h
    rw [← h]
    simp
  | succ n ih =>
    intro idx r out h
    unfold genRows at h
    split at h
    · rename_i row1 idx1 r1 hp
      split at h
      · rename_i row2 r2 hb
        split at h
        · rename_i rows r3 hrec
          simp only [Option.some.injEq] at h
          obtain ⟨hlen, hrows⟩ := ih _ _ _ hrec
          rw [← h]
          refine ⟨by simpa using hlen, ?_⟩
          intro row hrow
          simp only [List.mem_cons] at hrow
          rcases hrow with rfl | hrow
          · exact ⟨row1, idx, r, idx1, r1, r2, hp, hb⟩
          · exact hrows row hrow
        · exact absurd h (by simp)
      · exact absurd h (by simp)
    · exact absurd h (by simp)

/-- C2 (amended): generate_dummy_data returns exactly N rows, and each
row's key set is exactly the union of the declared properties and the
required list: a required name absent from properties is added by the
backfill, an extra key beyond the declared properties.  A required field
whose effective descriptor has no enum and is neither number- nor
integer-typed always holds a truthy (non-empty) value; an enum can supply
an empty member and a numeric range can supply 0, which survive the single
backfill redraw. -/
theorem C2_row_keys_and_required {today : Int} {schema : Schema} {n : Nat}
    {fasta_list : List HeaderEntry} {spread : Bool} {r : RandSrc}
    {rows : List Row} {r1 : RandSrc}
    (h : generate_dummy_data today schema n fasta_list spread r = some (rows, r1)) :
    rows.length = n ∧
    ∀ row ∈ rows,
      (∀ k, k ∈ row.map Prod.fst ↔
        (k ∈ schema.properties.map Prod.fst ∨ k ∈ schema.required)) ∧
      (∀ req ∈ schema.required,
        ((schema.properties.lookup req).getD emptyDescr).enum = none →
        ¬ ((schema.properties.lookup req).getD emptyDescr).type.getD "string" = "number" →
        ¬ ((schema.properties.lookup req).getD emptyDescr).type.getD "string" = "integer" →
        ∃ v, row.lookup req = some v ∧ v.truthy = true) := by
  unfold generate_dummy_data at h
  obtain ⟨hlen, hrows⟩ := genRows_spec _ _ _ _ h
  refine ⟨hlen, ?_⟩
  intro row hrow
  obtain ⟨row1, idx0, r0, idx1, rr1, r2, hp, hb⟩ := hrows row hrow
  constructor
  · intro k
    have h1 := genRowProps_keys _ _ _ _ _ hp k
    have h2 := backfill_keys _ _ _ _ hb k
    dsimp only at h1 h2
    rw [h2, h1]
    simp
  · intro req hreq he hn hi
    exact backfill_ensures _ _ _ _ hb req hreq he hn hi

/-- C2 counterexample to the claim as stated: with properties {y: enum of
one empty string} and required [x, y], the generated row has the extra key
x (absent from properties) and its required field y holds the empty
string. -/
theorem C2_counterexample :
    (match generate_dummy_data 0
        (Schema.mk [("y", Descr.mk none (some [Value.str ""]) none none none none)]
          ["x", "y"])
        1 [] false { stream := fun i => i, pos := 0 } with
      | some (rows, _) => some (rows.map (fun row => row.map Prod.fst),
          rows.map (fun row => (row.lookup "y").map Value.truthy))
      | none => none) = some ([["y", "x"]], [some false]) ∧
    ¬ (["y", "x"] : List String) = ["y"] ∧ "x" ∉ (["y"] : List String) := by
  refine ⟨rfl, by simp, by simp⟩

/-- Witness that C2_row_keys_and_required applies at a concrete input. -/
theorem C2_row_keys_and_required_witness :
    ([[("a", Value.str "abcdefghijklmnopqrst")]] : List Row).length = 1 ∧
    ∀ row ∈ ([[("a", Value.str "abcdefghijklmnopqrst")]] : List Row),
      (∀ k, k ∈ row.map Prod.fst ↔
        (k ∈ (Schema.mk [("a", emptyDescr)] ["a"]).properties.map Prod.fst ∨
          k ∈ (Schema.mk [("a", emptyDescr)] ["a"]).required)) ∧
      (∀ req ∈ (Schema.mk [("a", emptyDescr)] ["a"]).required,
        (((Schema.mk [("a", emptyDescr)] ["a"]).properties.lookup req).getD
          emptyDescr).enum = none →
        ¬ (((Schema.mk [("a", emptyDescr)] ["a"]).properties.lookup req).getD
          emptyDescr).type.getD "string" = "number" →
        ¬ (((Schema.mk [("a", emptyDescr)] ["a"]).properties.lookup req).getD
          emptyDescr).type.getD "string" = "integer" →
        ∃ v, row.lookup req = some v ∧ v.truthy = true) :=
  @C2_row_keys_and_required 0 (Schema.mk [("a", emptyDescr)] ["a"]) 1
    [] false { stream := fun i => i, pos := 0 } _
    { stream := fun i => i, pos := 20 } rfl

/-!  The spreading interleave: permutation and per-file order. -/

lemma groupOf_fst {l : List HeaderEntry} {f : String} {e : HeaderEntry}
    (h : e ∈ groupOf l f) : e.1 = f := by
  unfold groupOf at h
  have := (List.mem_filter.mp h).2
  simpa using this

lemma mem_fileKeys {l : List HeaderEntry} {f : String} :
    f ∈ fileKeys l ↔ f ∈ l.map Prod.fst := by
  unfold fileKeys
  rw [List.mem_insertionSort, List.mem_dedup]

lemma fileKeys_nodup (l : List HeaderEntry) : (fileKeys l).Nodup := by
  unfold fileKeys
  exact ((List.perm_insertionSort _ _).nodup_iff).mpr (List.nodup_dedup _)

lemma mem_le_foldr_max : ∀ (xs : List Nat) (x : Nat), x ∈ xs → x ≤ xs.foldr Nat.max 0 := by
  intro xs
  induction xs with
  | nil => intro x hx; simp at hx
  | cons a t ih =>
    intro x hx
    simp only [List.foldr_cons]
    rcases List.mem_cons.mp hx with rfl | hx
    · exact Nat.le_max_left _ _
    · exact (ih x hx).trans (Nat.le_max_right _ _)

lemma groupOf_length_le_maxEntries {l : List HeaderEntry} {f : String}
    (hf : f ∈ fileKeys l) : (groupOf l f).length ≤ maxEntries l := by
  unfold maxEntries
  exact mem_le_foldr_max _ _ (List.mem_map_of_mem _ hf)

lemma flatten_columns_of_le {α : Type} :
    ∀ (m : Nat) (g : List α), g.length ≤ m →
      ((List.range m).map (fun i => (g.get? i).toList)).flatten = g := by
  intro m
  induction m with
  | zero =>
    intro g hg
    have : g = [] := List.eq_nil_of_length_eq_zero (Nat.le_zero.mp hg)
    subst this
    rfl
  | succ m ih =>
    intro g hg
    rw [List.range_succ_eq_map, List.map_cons, List.map_map]
    cases g with
    | nil =>
      simp only [List.flatten_cons]
      rw [List.flatten_eq_nil_iff.mpr]
      · rfl
      · intro x hx
        simp only [List.mem_map, Function.comp_apply] at hx
        obtain ⟨i, -, hx⟩ := hx
        simp [← hx, List.get?]
    | cons a g2 =>
      simp only [List.flatten_cons]
      have : (List.range m).map ((fun i => (List.get? (a :: g2) i).toList) ∘ Nat.succ)
          = (List.range m).map (fun i => (g2.get? i).toList) := by
        apply List.map_congr_left
        intro i _
        rfl
      rw [this, ih g2 (by simpa using hg)]
      rfl

lemma perm_append_middle_swap {α : Type} (A B C D : List α) :
    ((A ++ B) ++ (C ++ D)).Perm ((A ++ C) ++ (B ++ D)) := by
  simp only [List.append_assoc]
  apply List.Perm.append_left
  have h := List.Perm.append_right D (@List.perm_append_comm _ B C)
  simpa only [List.append_assoc] using h

lemma flatten_map_append_perm {α β : Type} (xs : List β) (A B : β → List α) :
    ((xs.map (fun i => A i ++ B i)).flatten).Perm
      ((xs.map A).flatten ++ (xs.map B).flatten) := by
  induction xs with
  | nil => simp
  | cons x xs ih =>
    simp only [List.map_cons, List.flatten_cons]
    exact (List.Perm.append_left _ ih).trans (perm_append_middle_swap _ _ _ _)

lemma flatten_columns_perm {α : Type} :
    ∀ (groups : List (List α)) (m : Nat), (∀ g ∈ groups, g.length ≤ m) →
      (((List.range m).map (fun i => groups.filterMap (fun g => g.get? i))).flatten).Perm
        groups.flatten := by
  intro groups
  induction groups with
  | nil =>
    intro m _
    simp
  | cons g gs ih =>
    intro m hm
    have h1 : ((List.range m).map (fun i => (g :: gs).filterMap (fun g2 => g2.get? i)))
        = (List.range m).map
            (fun i => (g.get? i).toList ++ gs.filterMap (fun g2 => g2.get? i)) := by
      apply List.map_congr_left
      intro i _
      rw [List.filterMap_cons]
      cases g.get? i <;> rfl
    rw [h1]
    refine List.Perm.trans (flatten_map_append_perm (List.range m)
      (fun i => (g.get? i).toList) (fun i => gs.filterMap (fun g2 => g2.get? i))) ?_
    rw [flatten_columns_of_le m g (hm g (by simp)), List.flatten_cons]
    exact List.Perm.append_left _ (ih m (fun g2 hg2 => hm g2 (by simp [hg2])))

lemma flatten_groups_perm :
    ∀ (keys : List String) (l : List HeaderEntry), keys.Nodup →
      (∀ e ∈ l, e.1 ∈ keys) →
      ((keys.map (fun f => l.filter (fun e => e.1 == f))).flatten).Perm l := by
  intro keys
  induction keys with
  | nil =>
    intro l _ hcov
    have : l = [] := by
      rw [List.eq_nil_iff_forall_not_mem]
      intro e he
      simpa using hcov e he
    subst this
    simp
  | cons f keys ih =>
    intro l hnd hcov
    simp only [List.map_cons, List.flatten_cons]
    have hf : f ∉ keys := (List.nodup_cons.mp hnd).1
    have hnd2 : keys.Nodup := (List.nodup_cons.mp hnd).2
    have hfilter : ∀ g ∈ keys,
        (l.filter (fun e => !(e.1 == f))).filter (fun e => e.1 == g) =
          l.filter (fun e => e.1 == g) := by
      intro g hg
      rw [List.filter_filter]
      apply List.filter_congr
      intro e _
      by_cases heg : e.1 = g
      · have hgf : ¬ g = f := fun hx => hf (hx ▸ hg)
        simp [heg, hgf]
      · simp [heg]
    have hmap : keys.map (fun g => l.filter (fun e => e.1 == g)) =
        keys.map (fun g => (l.filter (fun e => !(e.1 == f))).filter (fun e => e.1 == g)) := by
      apply List.map_congr_left
      intro g hg
      exact (hfilter g hg).symm
    have hcov2 : ∀ e ∈ l.filter (fun e => !(e.1 == f)), e.1 ∈ keys := by
      intro e he
      obtain ⟨hel, hne⟩ := List.mem_filter.mp he
      rcases List.mem_cons.mp (hcov e hel) with heq | hk
      · simp [heq] at hne
      · exact hk
    refine List.Perm.trans ?_ (List.filter_append_perm (fun e => e.1 == f) l)
    refine List.Perm.append_left _ ?_
    rw [hmap]
    exact ih _ hnd2 hcov2

/-- The spreading interleave is a permutation of its input. -/
lemma interleave_perm (l : List HeaderEntry) : (interleave l).Perm l := by
  unfold interleave
  rw [List.flatMap_def]
  have hcol : (List.range (maxEntries l)).map
        (fun i => (fileKeys l).filterMap (fun f => (groupOf l f).get? i))
      = (List.range (maxEntries l)).map
        (fun i => ((fileKeys l).map (fun f => groupOf l f)).filterMap
          (fun g => g.get? i)) := by
    apply List.map_congr_left
    intro i _
    rw [List.filterMap_map]
    rfl
  rw [hcol]
  refine List.Perm.trans (flatten_columns_perm _ _ ?_) ?_
  · intro g hg
    obtain ⟨f, hf, rfl⟩ := List.mem_map.mp hg
    exact groupOf_length_le_maxEntries hf
  · refine List.Perm.trans (List.Perm.of_eq ?_) (flatten_groups_perm _ _ (fileKeys_nodup l) ?_)
    · rfl
    · intro e he
      rw [mem_fileKeys]
      exact List.mem_map_of_mem _ he

lemma column_filter (l : List HeaderEntry) (f : String) (i : Nat) :
    ∀ (keys : List String), keys.Nodup →
      ((keys.filterMap (fun g => (groupOf l g).get? i)).filter (fun e => e.1 == f)) =
        if f ∈ keys then ((groupOf l f).get? i).toList else [] := by
  intro keys
  induction keys with
  | nil => intro _; simp
  | cons g keys ih =>
    intro hnd
    obtain ⟨hg, hnd2⟩ := List.nodup_cons.mp hnd
    rw [List.filterMap_cons]
    cases hx : (groupOf l g).get? i with
    | none =>
      rw [ih hnd2]
      by_cases hfg : f = g
      · subst hfg
        rw [List.get?_eq_getElem?] at hx
        simp [hg, hx]
      · simp [hfg]
    | some x =>
      have hxg : x.1 = g := groupOf_fst (List.get?_mem hx)
      rw [List.filter_cons]
      by_cases hfg : f = g
      · subst hfg
        rw [if_pos (by simp [hxg])]
        rw [ih hnd2]
        rw [List.get?_eq_getElem?] at hx
        simp [hg, hx]
      · have hpx : (x.1 == f) = false := by
          rw [hxg, beq_eq_false_iff_ne]
          exact fun h => hfg h.symm
        rw [hpx]
        simp only [Bool.false_eq_true, if_false]
        rw [ih hnd2]
        simp [hfg]

/-- Filtering the interleaved list down to one file recovers exactly that
file group, in its original order: the interleave takes the i-th entry of
each group in turn and never reorders within a file. -/
lemma interleave_filter (l : List HeaderEntry) (f : String) :
    (interleave l).filter (fun e => e.1 == f) = groupOf l f := by
  unfold interleave
  rw [List.flatMap_def, List.filter_flatten, List.map_map]
  have hcols : (List.range (maxEntries l)).map
      ((List.filter (fun e => e.1 == f)) ∘
        (fun i => (fileKeys l).filterMap (fun g => (groupOf l g).get? i)))
      = (List.range (maxEntries l)).map
        (fun i => if f ∈ fileKeys l then ((groupOf l f).get? i).toList else []) := by
    apply List.map_congr_left
    intro i _
    exact column_filter l f i (fileKeys l) (fileKeys_nodup l)
  rw [hcols]
  by_cases hf : f ∈ fileKeys l
  · simp only [if_pos hf]
    exact flatten_columns_of_le _ _ (groupOf_length_le_maxEntries hf)
  · simp only [if_neg hf]
    have hempty : groupOf l f = [] := by
      rw [List.eq_nil_iff_forall_not_mem]
      intro e he
      exact hf (mem_fileKeys.mpr ((groupOf_fst he) ▸
        List.mem_map_of_mem _ ((List.mem_filter.mp he).1)))
    rw [hempty]
    simp

/-- C10: the interleaved list produced for spreading is a permutation of
the input entry list: same entries, same multiplicities, nothing dropped,
duplicated, or altered. -/
theorem C10_interleave_is_permutation :
    (∀ l : List HeaderEntry, (interleave l).Perm l) ∧
    (∀ l : List HeaderEntry,
      (interleave l : Multiset HeaderEntry) = (l : Multiset HeaderEntry)) :=
  ⟨interleave_perm, fun l => Multiset.coe_eq_coe.mpr (interleave_perm l)⟩

/-- C4: spreading groups the entries by file and rebuilds them round-robin
over the sorted file names, taking the i-th entry of each group in turn.
With groups of sizes [3, 3, 2] the 8 interleaved entries visit the files
round-robin until the third (size-2) file is exhausted, then the remaining
two files continue alternating; in general, per-file order is preserved
exactly (filtering the interleave to one file gives that file group). -/
theorem C4_round_robin_interleave :
    interleave [("a", "a1"), ("a", "a2"), ("a", "a3"), ("b", "b1"), ("b", "b2"),
        ("b", "b3"), ("c", "c1"), ("c", "c2")] =
      [("a", "a1"), ("b", "b1"), ("c", "c1"), ("a", "a2"), ("b", "b2"),
        ("c", "c2"), ("a", "a3"), ("b", "b3")] ∧
    (∀ (l : List HeaderEntry) (f : String),
      (interleave l).filter (fun e => e.1 == f) = groupOf l f) :=
  ⟨rfl, interleave_filter⟩

/-!  The shared fasta cursor (claim C3). -/

/-- One step of the properties loop with a non-empty fasta list, recording
what value was assigned and how the cursor moved: the fasta_file_name
branch reads the entry at the current cursor without advancing, the
fasta_header_name branch reads it and advances by one, and every other
property leaves the cursor alone. -/
lemma genRowProps_cons_step {today : Int} {a : HeaderEntry} {t : List HeaderEntry}
    {name : String} {dsc : Descr} {rest : List (String × Descr)} {idx : Nat}
    {r : RandSrc} {row : Row} {out : Row × Nat × RandSrc}
    (h : genRowProps today (a :: t) ((name, dsc) :: rest) idx r row = some out) :
    ∃ w idx2 r2, genRowProps today (a :: t) rest idx2 r2 (setKey row name w) = some out ∧
      ((name = "fasta_file_name" ∧ idx2 = idx ∧
        w = Value.str (((a :: t)).getD (idx % (a :: t).length) a).1) ∨
       (name = "fasta_header_name" ∧ idx2 = idx + 1 ∧
        w = Value.str (((a :: t)).getD (idx % (a :: t).length) a).2) ∨
       (¬ name = "fasta_file_name" ∧ ¬ name = "fasta_header_name" ∧ idx2 = idx)) := by
  unfold genRowProps at h
  by_cases h1 : name = "fasta_file_name"
  · rw [if_pos h1] at h
    exact ⟨_, idx, r, h, Or.inl ⟨h1, rfl, rfl⟩⟩
  · rw [if_neg h1] at h
    by_cases h2 : name = "fasta_header_name"
    · rw [if_pos h2] at h
      exact ⟨_, idx + 1, r, h, Or.inr (Or.inl ⟨h2, rfl, rfl⟩)⟩
    · rw [if_neg h2] at h
      cases hg : generate_dummy_value today dsc r with
      | none => rw [hg] at h; exact absurd h (by simp)
      | some p =>
        rw [hg] at h
        obtain ⟨w, r2⟩ := p
        exact ⟨w, idx, r2, h, Or.inr (Or.inr ⟨h1, h2, rfl⟩)⟩

lemma genRowProps_lookup_not_mem {today : Int} {fl : List HeaderEntry} :
    ∀ (props : List (String × Descr)) (idx : Nat) (r : RandSrc) (row : Row)
      (out : Row × Nat × RandSrc) (k : String),
      genRowProps today fl props idx r row = some out →
      k ∉ props.map Prod.fst →
      out.1.lookup k = row.lookup k := by
  intro props
  induction props with
  | nil =>
    intro idx r row out k h hk
    unfold genRowProps at h
    simp only [Option.some.injEq] at h
    rw [← h]
  | cons p rest ih =>
    obtain ⟨name, dsc⟩ := p
    intro idx r row out k h hk
    simp only [List.map_cons, List.mem_cons] at hk
    push_neg at hk
    obtain ⟨w, idx2, r2, h2⟩ := genRowProps_cons_shape h
    rw [ih _ _ _ _ _ h2 (by simpa using hk.2), setKey_lookup_ne _ _ hk.1]

/-- The cursor after one full properties pass advances by exactly the
number of fasta_header_name keys in the schema (once per row in the
intended one-occurrence case). -/
lemma genRowProps_idx {today : Int} {a : HeaderEntry} {t : List HeaderEntry} :
    ∀ (props : List (String × Descr)) (idx : Nat) (r : RandSrc) (row : Row)
      (out : Row × Nat × RandSrc),
      genRowProps today (a :: t) props idx r row = some out →
      out.2.1 = idx + (props.map Prod.fst).count "fasta_header_name" := by
  intro props
  induction props with
  | nil =>
    intro idx r row out h
    unfold genRowProps at h
    simp only [Option.some.injEq] at h
    rw [← h]
    simp
  | cons p rest ih =>
    obtain ⟨name, dsc⟩ := p
    intro idx r row out h
    obtain ⟨w, idx2, r2, h2, hbr⟩ := genRowProps_cons_step h
    have hrec := ih _ _ _ _ h2
    rcases hbr with ⟨hn, rfl, -⟩ | ⟨hn, rfl, -⟩ | ⟨hn1, hn2, rfl⟩
    · rw [hrec]
      simp only [List.map_cons, List.count_cons]
      rw [show (name == "fasta_header_name") = false by
        rw [beq_eq_false_iff_ne]; rw [hn]; decide]
      simp [Nat.add_comm]
    · rw [hrec]
      simp only [List.map_cons, List.count_cons]
      rw [show (name == "fasta_header_name") = true by simpa using hn]
      simp
      omega
    · rw [hrec]
      simp only [List.map_cons, List.count_cons]
      rw [show (name == "fasta_header_name") = false by
        rw [beq_eq_false_iff_ne]; exact hn2]
      simp

/-- The value assigned to fasta_file_name: the first component of the entry
at cursor position idx plus the number of fasta_header_name keys declared
before fasta_file_name. -/
lemma genRowProps_file_value {today : Int} {a : HeaderEntry} {t : List HeaderEntry} :
    ∀ (pre : List (String × Descr)) (props : List (String × Descr)) (idx : Nat)
      (r : RandSrc) (row : Row) (out : Row × Nat × RandSrc) (d : Descr)
      (post : List (String × Descr)),
      genRowProps today (a :: t) props idx r row = some out →
      (props.map Prod.fst).Nodup →
      props = pre ++ ("fasta_file_name", d) :: post →
      out.1.lookup "fasta_file_name" =
        some (Value.str
          (((a :: t)).getD ((idx + (pre.map Prod.fst).count "fasta_header_name")
            % (a :: t).length) a).1) := by
  intro pre
  induction pre with
  | nil =>
    intro props idx r row out d post h hnd hsplit
    subst hsplit
    obtain ⟨w, idx2, r2, h2, hbr⟩ := genRowProps_cons_step h
    rcases hbr with ⟨-, rfl, rfl⟩ | ⟨habs, -, -⟩ | ⟨habs, -, -⟩
    · have hnot : "fasta_file_name" ∉ post.map Prod.fst := by
        simp only [List.nil_append, List.map_cons] at hnd
        exact (List.nodup_cons.mp hnd).1
      rw [genRowProps_lookup_not_mem _ _ _ _ _ _ h2 hnot, setKey_lookup_self]
      simp
    · exact absurd habs (by decide)
    · exact absurd rfl habs
  | cons q pre2 ih2 =>
    intro props idx r row out d post h hnd hsplit
    obtain ⟨name, dsc⟩ := q
    subst hsplit
    obtain ⟨w, idx2, r2, h2, hbr⟩ := genRowProps_cons_step h
    have hnd2 : ((pre2 ++ ("fasta_file_name", d) :: post).map Prod.fst).Nodup := by
      simp only [List.cons_append, List.map_cons] at hnd
      exact (List.nodup_cons.mp hnd).2
    have hhead := (List.nodup_cons.mp (by
      simpa only [List.cons_append, List.map_cons] using hnd)).1
    rcases hbr with ⟨hn, hidx, -⟩ | ⟨hn, hidx, -⟩ | ⟨hn1, hn2, hidx⟩
    · exfalso
      apply hhead
      rw [hn]
      simp
    · have hrec := ih2 _ _ _ _ _ d post h2 hnd2 rfl
      rw [hidx] at hrec
      have harith : idx + 1 + (pre2.map Prod.fst).count "fasta_header_name"
          = idx + ((((name, dsc) :: pre2).map Prod.fst).count "fasta_header_name") := by
        simp only [List.map_cons, List.count_cons]
        rw [show (name == "fasta_header_name") = true by simpa using hn]
        simp
        omega
      rw [hrec, harith]
    · have hrec := ih2 _ _ _ _ _ d post h2 hnd2 rfl
      rw [hidx] at hrec
      have harith : idx + (pre2.map Prod.fst).count "fasta_header_name"
          = idx + ((((name, dsc) :: pre2).map Prod.fst).count "fasta_header_name") := by
        simp only [List.map_cons, List.count_cons]
        rw [show (name == "fasta_header_name") = false by
          rw [beq_eq_false_iff_ne]; exact hn2]
        simp
      rw [hrec, harith]

/-- The value assigned to fasta_header_name: the second component of the
entry at cursor position idx plus the number of fasta_header_name keys
declared before it (zero when the keys are distinct). -/
lemma genRowProps_header_value {today : Int} {a : HeaderEntry} {t : List HeaderEntry} :
    ∀ (pre : List (String × Descr)) (props : List (String × Descr)) (idx : Nat)
      (r : RandSrc) (row : Row) (out : Row × Nat × RandSrc) (d : Descr)
      (post : List (String × Descr)),
      genRowProps today (a :: t) props idx r row = some out →
      (props.map Prod.fst).Nodup →
      props = pre ++ ("fasta_header_name", d) :: post →
      out.1.lookup "fasta_header_name" =
        some (Value.str
          (((a :: t)).getD ((idx + (pre.map Prod.fst).count "fasta_header_name")
            % (a :: t).length) a).2) := by
  intro pre
  induction pre with
  | nil =>
    intro props idx r row out d post h hnd hsplit
    subst hsplit
    obtain ⟨w, idx2, r2, h2, hbr⟩ := genRowProps_cons_step h
    rcases hbr with ⟨habs, -, -⟩ | ⟨-, rfl, rfl⟩ | ⟨-, habs, -⟩
    · exact absurd habs (by decide)
    · have hnot : "fasta_header_name" ∉ post.map Prod.fst := by
        simp only [List.nil_append, List.map_cons] at hnd
        exact (List.nodup_cons.mp hnd).1
      rw [genRowProps_lookup_not_mem _ _ _ _ _ _ h2 hnot, setKey_lookup_self]
      simp
    · exact absurd rfl habs
  | cons q pre2 ih2 =>
    intro props idx r row out d post h hnd hsplit
    obtain ⟨name, dsc⟩ := q
    subst hsplit
    obtain ⟨w, idx2, r2, h2, hbr⟩ := genRowProps_cons_step h
    have hnd2 : ((pre2 ++ ("fasta_header_name", d) :: post).map Prod.fst).Nodup := by
      simp only [List.cons_append, List.map_cons] at hnd
      exact (List.nodup_cons.mp hnd).2
    have hhead := (List.nodup_cons.mp (by
      simpa only [List.cons_append, List.map_cons] using hnd)).1
    rcases hbr with ⟨hn, hidx, -⟩ | ⟨hn, hidx, -⟩ | ⟨hn1, hn2, hidx⟩
    · have hrec := ih2 _ _ _ _ _ d post h2 hnd2 rfl
      rw [hidx] at hrec
      have harith : idx + (pre2.map Prod.fst).count "fasta_header_name"
          = idx + ((((name, dsc) :: pre2).map Prod.fst).count "fasta_header_name") := by
        simp only [List.map_cons, List.count_cons]
        rw [show (name == "fasta_header_name") = false by
          rw [beq_eq_false_iff_ne]; rw [hn]; decide]
        simp
      rw [hrec, harith]
    · exfalso
      apply hhead
      rw [hn]
      simp
    · have hrec := ih2 _ _ _ _ _ d post h2 hnd2 rfl
      rw [hidx] at hrec
      have harith : idx + (pre2.map Prod.fst).count "fasta_header_name"
          = idx + ((((name, dsc) :: pre2).map Prod.fst).count "fasta_header_name") := by
        simp only [List.map_cons, List.count_cons]
        rw [show (name == "fasta_header_name") = false by
          rw [beq_eq_false_iff_ne]; exact hn2]
        simp
      rw [hrec, harith]

lemma getD_mem_of_cons {a : HeaderEntry} {t : List HeaderEntry} (i : Nat) :
    (a :: t).getD (i % (a :: t).length) a ∈ (a :: t) := by
  have hi : i % (a :: t).length < (a :: t).length := Nat.mod_lt _ (Nat.succ_pos _)
  rw [List.getD_eq_getElem _ _ hi]
  exact List.getElem_mem hi

lemma genRows_fasta_pairs {today : Int} {schema : Schema} {a : HeaderEntry}
    {t : List HeaderEntry} {pre mid post : List (String × Descr)} {d1 d2 : Descr}
    (hnd : (schema.properties.map Prod.fst).Nodup)
    (hsplit : schema.properties =
      pre ++ (("fasta_file_name", d1) :: (mid ++ (("fasta_header_name", d2) :: post))))
    (hent : ∀ e ∈ (a :: t), e.1.length ≠ 0 ∧ e.2.length ≠ 0) :
    ∀ (n idx : Nat) (r : RandSrc) (out : List Row × RandSrc),
      genRows today schema (a :: t) n idx r = some out →
      ∀ (i : Nat) (hi : i < out.1.length),
        (out.1.get ⟨i, hi⟩).lookup "fasta_file_name" =
          some (Value.str ((a :: t).getD ((idx + i) % (a :: t).length) a).1) ∧
        (out.1.get ⟨i, hi⟩).lookup "fasta_header_name" =
          some (Value.str ((a :: t).getD ((idx + i) % (a :: t).length) a).2) := by
  have hkeys : schema.properties.map Prod.fst =
      pre.map Prod.fst ++ "fasta_file_name" ::
        (mid.map Prod.fst ++ "fasta_header_name" :: post.map Prod.fst) := by
    rw [hsplit]
    simp
  have hnd' : (pre.map Prod.fst ++ "fasta_file_name" ::
      (mid.map Prod.fst ++ "fasta_header_name" :: post.map Prod.fst)).Nodup :=
    hkeys ▸ hnd
  have hdisj := List.disjoint_of_nodup_append hnd'
  have hpre : "fasta_header_name" ∉ pre.map Prod.fst := fun hx => hdisj hx (by simp)
  have hnd_r := hnd'.of_append_right
  obtain ⟨hfile_not, hnd_r2⟩ := List.nodup_cons.mp hnd_r
  have hdisj2 := List.disjoint_of_nodup_append hnd_r2
  have hmid : "fasta_header_name" ∉ mid.map Prod.fst := fun hx => hdisj2 hx (by simp)
  have hnd_r3 := hnd_r2.of_append_right
  have hpost : "fasta_header_name" ∉ post.map Prod.fst := (List.nodup_cons.mp hnd_r3).1
  have c1 : (pre.map Prod.fst).count "fasta_header_name" = 0 := List.count_eq_zero.mpr hpre
  have c2 : (mid.map Prod.fst).count "fasta_header_name" = 0 := List.count_eq_zero.mpr hmid
  have c3 : (post.map Prod.fst).count "fasta_header_name" = 0 := List.count_eq_zero.mpr hpost
  have hcount1 : (schema.properties.map Prod.fst).count "fasta_header_name" = 1 := by
    rw [hkeys]
    simp [List.count_append, List.count_cons, c1, c2, c3]
  have hsplit2 : schema.properties =
      (pre ++ (("fasta_file_name", d1) :: mid)) ++ (("fasta_header_name", d2) :: post) := by
    rw [hsplit]
    simp
  have cpre2 : ((pre ++ ("fasta_file_name", d1) :: mid).map Prod.fst).count
      "fasta_header_name" = 0 := by
    simp [List.count_append, List.count_cons, c1, c2]
  intro n
  induction n with
  | zero =>
    intro idx r out h i hi
    unfold genRows at h
    simp only [Option.some.injEq] at h
    rw [← h] at hi
    simp at hi
  | succ n ih =>
    intro idx r out h i hi
    unfold genRows at h
    split at h
    · rename_i row1 idx1 r1 hp
      split at h
      · rename_i row2 r2 hb
        split at h
        · rename_i rows r3 hrec
          simp only [Option.some.injEq] at h
          subst h
          have hfv := genRowProps_file_value pre _ idx r [] _ d1
            (mid ++ ("fasta_header_name", d2) :: post) hp hnd hsplit
          have hhv := genRowProps_header_value (pre ++ ("fasta_file_name", d1) :: mid)
            _ idx r [] _ d2 post hp hnd hsplit2
          rw [c1] at hfv
          rw [cpre2] at hhv
          dsimp only at hfv hhv
          have hemem := getD_mem_of_cons (a := a) (t := t) (idx + 0)
          have htr1 : (Value.str ((a :: t).getD ((idx + 0) % (a :: t).length) a).1).truthy
              = true := by
            simp only [Value.truthy, decide_eq_true_eq]
            exact (hent _ hemem).1
          have htr2 : (Value.str ((a :: t).getD ((idx + 0) % (a :: t).length) a).2).truthy
              = true := by
            simp only [Value.truthy, decide_eq_true_eq]
            exact (hent _ hemem).2
          have hf2 := backfill_preserves _ _ _ _ _ _ hb hfv htr1
          have hh2 := backfill_preserves _ _ _ _ _ _ hb hhv htr2
          have hidx1 : idx1 = idx + 1 := by
            have hx := genRowProps_idx _ _ _ _ _ hp
            dsimp only at hx
            rw [hcount1] at hx
            exact hx
          cases i with
          | zero =>
            dsimp only at hf2 hh2 ⊢
            exact ⟨hf2, hh2⟩
          | succ j =>
            have hj : j < rows.length := by
              simpa using hi
            have hih := ih idx1 r2 (rows, r3) hrec j hj
            rw [hidx1] at hih
            have harith : idx + 1 + j = idx + (j + 1) := by omega
            rw [harith] at hih
            dsimp only at hih ⊢
            exact hih
        · exact absurd h (by simp)
      · exact absurd h (by simp)
    · exact absurd h (by simp)

/-- C3 (amended): when fasta_file_name is declared before fasta_header_name
(both present, property keys distinct) and the effective header-entry list
is non-empty with non-empty components, the two special-cased fields of
row i are the two components of one and the same entry, the one at index
i mod len of the effective (possibly interleaved) list: the shared cursor
starts at 0, advances exactly once per row, and wraps modulo the list
length.  When fasta_header_name is declared first, the header is taken at
the cursor and the file name at the already-advanced cursor, so the two
fields come from consecutive entries instead (see the counterexample). -/
theorem C3_shared_cursor {today : Int} {schema : Schema} {n : Nat}
    {fasta_list : List HeaderEntry} {spread : Bool} {r : RandSrc}
    {rows : List Row} {r1 : RandSrc} {pre mid post : List (String × Descr)}
    {d1 d2 : Descr} {a : HeaderEntry} {t : List HeaderEntry}
    (h : generate_dummy_data today schema n fasta_list spread r = some (rows, r1))
    (hnd : (schema.properties.map Prod.fst).Nodup)
    (hsplit : schema.properties =
      pre ++ (("fasta_file_name", d1) :: (mid ++ (("fasta_header_name", d2) :: post))))
    (heff : (if spread && !fasta_list.isEmpty then interleave fasta_list
      else fasta_list) = a :: t)
    (hent : ∀ e ∈ fasta_list, e.1.length ≠ 0 ∧ e.2.length ≠ 0) :
    ∀ (i : Nat) (hi : i < rows.length),
      (rows.get ⟨i, hi⟩).lookup "fasta_file_name" =
        some (Value.str ((a :: t).getD (i % (a :: t).length) a).1) ∧
      (rows.get ⟨i, hi⟩).lookup "fasta_header_name" =
        some (Value.str ((a :: t).getD (i % (a :: t).length) a).2) := by
  unfold generate_dummy_data at h
  rw [heff] at h
  have hent2 : ∀ e ∈ (a :: t), e.1.length ≠ 0 ∧ e.2.length ≠ 0 := by
    intro e he
    rw [← heff] at he
    by_cases hs : spread && !fasta_list.isEmpty
    · rw [if_pos hs] at he
      exact hent e ((interleave_perm fasta_list).mem_iff.mp he)
    · rw [if_neg hs] at he
      exact hent e he
  intro i hi
  have hx := genRows_fasta_pairs hnd hsplit hent2 n 0 r (rows, r1) h i (by simpa using hi)
  simpa using hx

/-- C3 counterexample to the claim as stated: with fasta_header_name
declared before fasta_file_name, the generated row pairs the header of the
first entry with the file name of the second entry, a (file, header) pair
that is not an entry of the list. -/
theorem C3_counterexample :
    (match generate_dummy_data 0
        (Schema.mk [("fasta_header_name", emptyDescr), ("fasta_file_name", emptyDescr)] [])
        1 [("f1", "h1"), ("f2", "h2")] false { stream := fun i => i, pos := 0 } with
      | some (rows, _) => rows.map (fun row =>
          (row.lookup "fasta_file_name", row.lookup "fasta_header_name"))
      | none => []) = [(some (Value.str "f2"), some (Value.str "h1"))] ∧
    ("f2", "h1") ∉ ([("f1", "h1"), ("f2", "h2")] : List HeaderEntry) := by
  constructor
  · rfl
  · simp

/-- Witness that C3_shared_cursor applies at a concrete input: with three
rows over two entries and fasta_file_name declared first, the third row
wraps back to the first entry and carries both of its components. -/
theorem C3_shared_cursor_witness :
    (([
        [("fasta_file_name", Value.str "f1"), ("fasta_header_name", Value.str "h1")],
        [("fasta_file_name", Value.str "f2"), ("fasta_header_name", Value.str "h2")],
        [("fasta_file_name", Value.str "f1"), ("fasta_header_name", Value.str "h1")]] :
          List Row).get ⟨2, by decide⟩).lookup "fasta_file_name" =
      some (Value.str ((("f1", "h1") :: [("f2", "h2")]).getD
        (2 % (("f1", "h1") :: [("f2", "h2")]).length) ("f1", "h1")).1) ∧
    (([
        [("fasta_file_name", Value.str "f1"), ("fasta_header_name", Value.str "h1")],
        [("fasta_file_name", Value.str "f2"), ("fasta_header_name", Value.str "h2")],
        [("fasta_file_name", Value.str "f1"), ("fasta_header_name", Value.str "h1")]] :
          List Row).get ⟨2, by decide⟩).lookup "fasta_header_name" =
      some (Value.str ((("f1", "h1") :: [("f2", "h2")]).getD
        (2 % (("f1", "h1") :: [("f2", "h2")]).length) ("f1", "h1")).2) :=
  @C3_shared_cursor 0
    (Schema.mk [("fasta_file_name", emptyDescr), ("fasta_header_name", emptyDescr)] [])
    3 [("f1", "h1"), ("f2", "h2")] false { stream := fun i => i, pos := 0 }
    _ { stream := fun i => i, pos := 0 }
    [] [] [] emptyDescr emptyDescr ("f1", "h1") [("f2", "h2")]
    rfl (by decide) rfl rfl (by decide) 2 (by decide)

lemma transformLines_preserves {line : String} :
    ∀ (lines : List String) (r : RandSrc), line ∈ lines →
      pyStartsWith line ">" = false →
      line ∈ (transformLines lines r).1 := by
  intro lines
  induction lines with
  | nil => intro r h _; simp at h
  | cons l rest ih =>
    intro r hmem hns
    unfold transformLines
    by_cases hl : pyStartsWith l ">"
    · rw [if_pos hl]
      rcases hg : generate_random_string 20 r with ⟨s, r1⟩
      rcases ht : transformLines rest r1 with ⟨others, r2⟩
      rcases List.mem_cons.mp hmem with rfl | hmem2
      · rw [hns] at hl
        exact absurd hl (by simp)
      · simp
        exact Or.inr (ih r1 hmem2 hns)
    · rw [if_neg hl]
      rcases ht : transformLines rest r with ⟨others, r2⟩
      rcases List.mem_cons.mp hmem with rfl | hmem2
      · simp
      · have := ih r hmem2 hns
        rw [ht] at this
        simp [this]

lemma extractFileHeaders_mem {name line : String} {lines : List String}
    (hmem : line ∈ lines) (hstrip : pyStartsWith (pyStrip line) ">" = true) :
    (name, pySlice1 (pyStrip line)) ∈ extractFileHeaders name lines := by
  unfold extractFileHeaders
  rw [List.mem_filterMap]
  exact ⟨line, hmem, by simp [hstrip]⟩

/-- C9: the randomizer rewrites only lines whose very first character is
the record marker, while the extractor strips surrounding whitespace
before classifying; a line with whitespace before the marker is therefore
copied verbatim into the randomized file and still emitted as a
HeaderEntry whose text is derived from the original line, not a fresh
random string: the extracted entry is independent of the random source. -/
theorem C9_whitespace_header_not_randomized {name line : String}
    {lines : List String} {r : RandSrc}
    (hmem : line ∈ lines)
    (hraw : pyStartsWith line ">" = false)
    (hstrip : pyStartsWith (pyStrip line) ">" = true) :
    line ∈ (transformLines lines r).1 ∧
    (name, pySlice1 (pyStrip line)) ∈
      extractFileHeaders name (transformLines lines r).1 := by
  have h1 := transformLines_preserves lines r hmem hraw
  exact ⟨h1, extractFileHeaders_mem h1 hstrip⟩

/-- Witness that C9_whitespace_header_not_randomized applies at a concrete
input: the line with a space before the marker in a two-line file. -/
theorem C9_whitespace_header_not_randomized_witness :
    (" >orig" : String) ∈ (transformLines [" >orig", "ACGT"]
      { stream := fun i => i, pos := 0 }).1 ∧
    ("x.fasta", pySlice1 (pyStrip " >orig")) ∈
      extractFileHeaders "x.fasta" (transformLines [" >orig", "ACGT"]
        { stream := fun i => i, pos := 0 }).1 :=
  @C9_whitespace_header_not_randomized "x.fasta" " >orig" [" >orig", "ACGT"]
    { stream := fun i => i, pos := 0 } (by decide) (by decide) (by decide)

/-- C5 (amended): the scratch directory is removed on every path that
created it, via the try/finally; the temporary TSV file is removed only
when the zip write returns normally, because its unlink sits inside the
try block after the zip step, so an exception while writing the archive
leaks the TSV file. -/
theorem C5_cleanup_behaviour :
    ∀ (schema : Schema) (num_rows : Nat) (spreadArg : Option Nat) (tsvName : String)
      (sourceFiles : List SourceFile) (writeFail readFail : String → Bool)
      (zipRaises : Bool) (today : Int) (r : RandSrc),
      ((runPipelineA schema num_rows spreadArg tsvName sourceFiles writeFail readFail
          zipRaises today r).dirCreated = true →
        (runPipelineA schema num_rows spreadArg tsvName sourceFiles writeFail readFail
          zipRaises today r).dirDeleted = true) ∧
      (zipRaises = false →
        (runPipelineA schema num_rows spreadArg tsvName sourceFiles writeFail readFail
          zipRaises today r).tsvCreated = true →
        (runPipelineA schema num_rows spreadArg tsvName sourceFiles writeFail readFail
          zipRaises today r).tsvDeleted = true) := by
  intro schema num_rows spreadArg tsvName sourceFiles writeFail readFail zipRaises today r
  suffices h : ∀ res : RunResult,
      runPipelineA schema num_rows spreadArg tsvName sourceFiles writeFail readFail
        zipRaises today r = res →
      ((res.dirCreated = true → res.dirDeleted = true) ∧
       (zipRaises = false → res.tsvCreated = true → res.tsvDeleted = true)) by
    exact h _ rfl
  intro res hres
  simp only [runPipelineA] at hres
  repeat' split at hres
  all_goals rw [← hres]
  all_goals simp_all

/-- C5 counterexample to the claim as stated: a run whose zip write raises
creates the temporary TSV but never deletes it (the scratch directory is
still removed by the finally block). -/
theorem C5_counterexample :
    (runPipelineA
        (Schema.mk [("fasta_file_name", emptyDescr), ("fasta_header_name", emptyDescr)] [])
        1 (some 2) "data.tsv"
        [SourceFile.mk "one.fasta" [">h1", "AAA"], SourceFile.mk "two.fasta" [">h2", "CCC"]]
        (fun _ => false) (fun _ => false) true 0
        { stream := fun i => i, pos := 0 }).tsvCreated = true ∧
    (runPipelineA
        (Schema.mk [("fasta_file_name", emptyDescr), ("fasta_header_name", emptyDescr)] [])
        1 (some 2) "data.tsv"
        [SourceFile.mk "one.fasta" [">h1", "AAA"], SourceFile.mk "two.fasta" [">h2", "CCC"]]
        (fun _ => false) (fun _ => false) true 0
        { stream := fun i => i, pos := 0 }).tsvDeleted = false ∧
    (runPipelineA
        (Schema.mk [("fasta_file_name", emptyDescr), ("fasta_header_name", emptyDescr)] [])
        1 (some 2) "data.tsv"
        [SourceFile.mk "one.fasta" [">h1", "AAA"], SourceFile.mk "two.fasta" [">h2", "CCC"]]
        (fun _ => false) (fun _ => false) true 0
        { stream := fun i => i, pos := 0 }).dirDeleted = true :=
  ⟨rfl, rfl, rfl⟩

/-- Witness that C5_cleanup_behaviour applies at a concrete input with a
successful zip write. -/
theorem C5_cleanup_behaviour_witness :
    (runPipelineA
        (Schema.mk [("fasta_file_name", emptyDescr), ("fasta_header_name", emptyDescr)] [])
        1 (some 2) "data.tsv"
        [SourceFile.mk "one.fasta" [">h1", "AAA"], SourceFile.mk "two.fasta" [">h2", "CCC"]]
        (fun _ => false) (fun _ => false) false 0
        { stream := fun i => i, pos := 0 }).dirDeleted = true ∧
    (runPipelineA
        (Schema.mk [("fasta_file_name", emptyDescr), ("fasta_header_name", emptyDescr)] [])
        1 (some 2) "data.tsv"
        [SourceFile.mk "one.fasta" [">h1", "AAA"], SourceFile.mk "two.fasta" [">h2", "CCC"]]
        (fun _ => false) (fun _ => false) false 0
        { stream := fun i => i, pos := 0 }).tsvDeleted = true :=
  ⟨(C5_cleanup_behaviour
      (Schema.mk [("fasta_file_name", emptyDescr), ("fasta_header_name", emptyDescr)] [])
      1 (some 2) "data.tsv"
      [SourceFile.mk "one.fasta" [">h1", "AAA"], SourceFile.mk "two.fasta" [">h2", "CCC"]]
      (fun _ => false) (fun _ => false) false 0
      { stream := fun i => i, pos := 0 }).1 rfl,
   (C5_cleanup_behaviour
      (Schema.mk [("fasta_file_name", emptyDescr), ("fasta_header_name", emptyDescr)] [])
      1 (some 2) "data.tsv"
      [SourceFile.mk "one.fasta" [">h1", "AAA"], SourceFile.mk "two.fasta" [">h2", "CCC"]]
      (fun _ => false) (fun _ => false) false 0
      { stream := fun i => i, pos := 0 }).2 rfl rfl⟩

lemma extract_mem_isSome {d : TempDir} {mapping : List (String × String)}
    {readFail : String → Bool} {e : HeaderEntry}
    (h : e ∈ extract_headers_from_temp_dir d mapping readFail) :
    (d.lookup e.1).isSome := by
  unfold extract_headers_from_temp_dir at h
  rw [List.mem_flatMap] at h
  obtain ⟨p, hp, hin⟩ := h
  by_cases hrf : readFail p.2
  · rw [if_pos hrf] at hin
    simp at hin
  · rw [if_neg hrf] at hin
    cases hd : d.lookup p.2 with
    | none =>
      rw [hd] at hin
      simp at hin
    | some lines =>
      rw [hd] at hin
      have he1 : e.1 = p.2 := by
        unfold extractFileHeaders at hin
        rw [List.mem_filterMap] at hin
        obtain ⟨line, -, hline⟩ := hin
        by_cases hs : pyStartsWith (pyStrip line) ">"
        · simp only [hs, if_true] at hline
          injection hline with h2
          rw [← h2]
        · simp only [hs, Bool.false_eq_true, if_false] at hline
          exact absurd hline (by simp)
      rw [he1, hd]
      rfl

/-- Every selected file exists in the scratch directory, because a file
name can only be selected if the extractor produced an entry for it, and
the extractor only reads files present in the scratch directory; hence the
zip loop keeps all of them. -/
lemma archiveSeqFiles_selected (d : TempDir) (mapping : List (String × String))
    (readFail : String → Bool) (spreadArg : Option Nat) :
    archiveSeqFiles d
        (selectedFilesOf (extract_headers_from_temp_dir d mapping readFail) spreadArg)
      = selectedFilesOf (extract_headers_from_temp_dir d mapping readFail) spreadArg := by
  unfold archiveSeqFiles
  rw [List.filter_eq_self]
  intro f hf
  unfold selectedFilesOf at hf
  have hf2 := (List.take_sublist _ _).mem hf
  rw [List.mem_insertionSort, List.mem_dedup] at hf2
  obtain ⟨e, he, rfl⟩ := List.mem_map.mp hf2
  simpa using extract_mem_isSome he

/-- C1 (amended): a completed run archives the TSV entry followed by
exactly the selected files, i.e. all available randomized file names in
sorted order truncated to the spread count, whether or not spreading was
requested; a selected file referenced by zero rows still appears in the
archive. -/
theorem C1_archive_contents {schema : Schema} {num_rows : Nat} {spreadArg : Option Nat}
    {tsvName : String} {sourceFiles : List SourceFile} {writeFail readFail : String → Bool}
    {zipRaises : Bool} {today : Int} {r : RandSrc}
    (hc : (runPipelineA schema num_rows spreadArg tsvName sourceFiles writeFail readFail
      zipRaises today r).outcome = RunOutcome.completed) :
    ∃ temp_dir mapping r1,
      create_randomized_fasta_files sourceFiles writeFail r = (some (temp_dir, mapping), r1) ∧
      archiveSeqFiles temp_dir
          (selectedFilesOf (extract_headers_from_temp_dir temp_dir mapping readFail) spreadArg)
        = selectedFilesOf (extract_headers_from_temp_dir temp_dir mapping readFail) spreadArg ∧
      (runPipelineA schema num_rows spreadArg tsvName sourceFiles writeFail readFail
          zipRaises today r).archive
        = some (tsvName ::
            selectedFilesOf (extract_headers_from_temp_dir temp_dir mapping readFail)
              spreadArg) := by
  generalize hres : runPipelineA schema num_rows spreadArg tsvName sourceFiles writeFail
    readFail zipRaises today r = res at hc ⊢
  simp only [runPipelineA] at hres
  repeat' split at hres
  all_goals rw [← hres] at hc
  all_goals try simp at hc
  rename_i temp_dir mapping r1 hcr hne x data snd hgdd hdne hz
  refine ⟨temp_dir, mapping, r1, hcr, archiveSeqFiles_selected _ _ _ _, ?_⟩
  rw [← hres, archiveSeqFiles_selected]

/-- C1 counterexample to the claim as stated: in a run with two randomized
files, one generated row, and spreading requested via a spread argument of
2, the archive contains both selected files although only one of them is
referenced by any row. -/
theorem C1_counterexample :
    (runPipelineA
        (Schema.mk [("fasta_file_name", emptyDescr), ("fasta_header_name", emptyDescr)] [])
        1 (some 2) "data.tsv"
        [SourceFile.mk "one.fasta" [">h1", "AAA"], SourceFile.mk "two.fasta" [">h2", "CCC"]]
        (fun _ => false) (fun _ => false) false 0
        { stream := fun i => i, pos := 0 }).archive
      = some ["data.tsv", "GHIJKLMNOPQR.fasta", "abcdefghijkl.fasta"] ∧
    referencedFiles (runPipelineA
        (Schema.mk [("fasta_file_name", emptyDescr), ("fasta_header_name", emptyDescr)] [])
        1 (some 2) "data.tsv"
        [SourceFile.mk "one.fasta" [">h1", "AAA"], SourceFile.mk "two.fasta" [">h2", "CCC"]]
        (fun _ => false) (fun _ => false) false 0
        { stream := fun i => i, pos := 0 }).rows
      = ["GHIJKLMNOPQR.fasta"] ∧
    "abcdefghijkl.fasta" ∉ (["GHIJKLMNOPQR.fasta"] : List String) :=
  ⟨rfl, rfl, by simp⟩

/-- Witness that C1_archive_contents applies at a concrete completed run. -/
theorem C1_archive_contents_witness :
    ∃ temp_dir mapping r1,
      create_randomized_fasta_files
          [SourceFile.mk "one.fasta" [">h1", "AAA"], SourceFile.mk "two.fasta" [">h2", "CCC"]]
          (fun _ => false) { stream := fun i => i, pos := 0 }
        = (some (temp_dir, mapping), r1) ∧
      archiveSeqFiles temp_dir
          (selectedFilesOf (extract_headers_from_temp_dir temp_dir mapping (fun _ => false))
            (some 2))
        = selectedFilesOf (extract_headers_from_temp_dir temp_dir mapping (fun _ => false))
            (some 2) ∧
      (runPipelineA
          (Schema.mk [("fasta_file_name", emptyDescr), ("fasta_header_name", emptyDescr)] [])
          1 (some 2) "data.tsv"
          [SourceFile.mk "one.fasta" [">h1", "AAA"], SourceFile.mk "two.fasta" [">h2", "CCC"]]
          (fun _ => false) (fun _ => false) false 0
          { stream := fun i => i, pos := 0 }).archive
        = some ("data.tsv" ::
            selectedFilesOf (extract_headers_from_temp_dir temp_dir mapping (fun _ => false))
              (some 2)) :=
  @C1_archive_contents
    (Schema.mk [("fasta_file_name", emptyDescr), ("fasta_header_name", emptyDescr)] [])
    1 (some 2) "data.tsv"
    [SourceFile.mk "one.fasta" [">h1", "AAA"], SourceFile.mk "two.fasta" [">h2", "CCC"]]
    (fun _ => false) (fun _ => false) false 0
    { stream := fun i => i, pos := 0 } rfl
